import Mathlib

/-!
# Sound input ring buffers of `snd.cc`

A shallow embedding of the producer/consumer ring buffers of `snd.cc`
(`CardSoundIn`, `AirspySoundIn`), of the Python entry points `ext_snd_read`
and `ext_set_freq`, and theorems about them.

Conventions of the embedding.

* `int` fields that hold indices, counts and rates (`n_`, `wi_`, `ri_`,
  `rate_`, `count_`, ...) are natural numbers.  Every expression the code
  evaluates on them stays below `2 * n_ + 1`, so for the buffer sizes the
  program allocates no 32-bit overflow occurs and `Nat` arithmetic is exact.
  The argument `n` of `get` is taken non-negative.
* `double` values (times, normalised samples, I/Q samples) are rationals:
  arithmetic is exact.
* `buf_` is the memory behind the pointer: a function from cell index to value.
* `while` loops whose termination depends on the state take fuel and report
  `Fault.fuel` when it runs out; counted loops recurse on their counter.
* What the code prints on stderr is returned as a list of `Stderr` records.
-/

namespace Snd

/-- One line printed on stderr by the code embedded here. -/
inductive Stderr where
  | cardStatusFlags (statusFlags frameCount : Nat)
  | cardOverflow
  | airspyDropped (dropped_samples sample_count : Nat)
  | unsupportedFrequency (hz : Int)
  | setFreqFailed (hz : Int)
  deriving DecidableEq, Repr

/-- The ways a modelled call can fail to return a value. -/
inductive Fault where
  | fuel
  | assertion
  deriving DecidableEq, Repr

/-! ## Index arithmetic shared by both ring buffers -/

/-- The expression `(wi_ + n_ - ri_) % n_` of both `get` functions: the number
of buffered samples. -/
def occupancy (n_ wi_ ri_ : Nat) : Nat := (wi_ + n_ - ri_) % n_

/-- The cells `ri_, ri_+1, ...` (modulo `n_`) up to but excluding `wi_`,
oldest first: the samples written and not yet read. -/
def contents {α : Type} (buf_ : Nat → α) (n_ wi_ ri_ : Nat) : List α :=
  (List.range (occupancy n_ wi_ ri_)).map (fun k => buf_ ((ri_ + k) % n_))

/-- The loop of `get` under `if(latest)`:
`while(((wi_ + n_ - ri_) % n_) > n) ri_ = (ri_ + 1) % n_;`.
Returns the final `ri_`. -/
def discardLoop (n_ wi_ n : Nat) : Nat → Nat → Except Fault Nat
  | 0, ri_ => if (wi_ + n_ - ri_) % n_ > n then .error .fuel else .ok ri_
  | fuel + 1, ri_ =>
    if (wi_ + n_ - ri_) % n_ > n then discardLoop n_ wi_ n fuel ((ri_ + 1) % n_)
    else .ok ri_

/-- The loop of `get` that moves samples out of the buffer:
`while(v.size() < n){ if(ri_ == wi_) break; v.push_back(conv(buf_[ri_])); ri_ = (ri_ + 1) % n_; }`.
The first argument is `n - v.size()`, which drops by one in every iteration
that does not break.  Returns the final `ri_` and `v`. -/
def popLoop {α β : Type} (buf_ : Nat → α) (conv : α → β) (n_ wi_ : Nat) :
    Nat → Nat → List β → Nat × List β
  | 0, ri_, v => (ri_, v)
  | k + 1, ri_, v =>
    if ri_ = wi_ then (ri_, v)
    else popLoop buf_ conv n_ wi_ k ((ri_ + 1) % n_) (v ++ [conv (buf_ ri_)])

/-! ## CardSoundIn -/

/-- The fields of `CardSoundIn` that `cb` and `get` use. -/
structure CardSoundIn where
  card_ : Int
  chan_ : Nat
  channels_ : Nat
  time_ : ℚ
  rate_ : Nat
  dt_ : ℚ
  n_ : Nat
  buf_ : Nat → Int
  wi_ : Nat
  ri_ : Nat

namespace CardSoundIn

/-- The `for` loop of `CardSoundIn::cb`; the first argument is
`frameCount - i`.  A full buffer prints the overflow line and breaks. -/
def cbLoop (input : Nat → Int) : Nat → Nat → CardSoundIn → CardSoundIn × List Stderr
  | 0, _, sin => (sin, [])
  | k + 1, i, sin =>
    if (sin.wi_ + 1) % sin.n_ ≠ sin.ri_ then
      cbLoop input k (i + 1)
        { sin with
          buf_ := Function.update sin.buf_ sin.wi_ (input (i * sin.channels_ + sin.chan_))
          wi_ := (sin.wi_ + 1) % sin.n_ }
    else (sin, [Stderr.cardOverflow])

/-- `CardSoundIn::cb`: `input` is the block of interleaved 16-bit frames,
`inputBufferAdcTime` is `timeInfo->inputBufferAdcTime`.  Returns the new
state, the stderr lines and the return value. -/
def cb (sin : CardSoundIn) (input : Nat → Int) (frameCount : Nat)
    (inputBufferAdcTime : ℚ) (statusFlags : Nat) : CardSoundIn × List Stderr × Int :=
  let log := if statusFlags ≠ 0 then [Stderr.cardStatusFlags statusFlags frameCount] else []
  let r := cbLoop input frameCount 0 sin
  ({ r.1 with time_ := inputBufferAdcTime + (frameCount : ℚ) * (1 / (r.1.rate_ : ℚ)) },
    log ++ r.2, 0)

/-- `CardSoundIn::get`: returns the new state, the vector `v` and `t0`. -/
def get (fuel : Nat) (s : CardSoundIn) (n : Nat) (latest : Int) :
    Except Fault (CardSoundIn × List ℚ × ℚ) :=
  if s.time_ < 0 ∧ s.wi_ = s.ri_ then .ok (s, [], -1)
  else
    match (if latest ≠ 0 then discardLoop s.n_ s.wi_ n fuel s.ri_ else .ok s.ri_) with
    | .error e => .error e
    | .ok ri1 =>
      let t0 : ℚ := s.time_ + s.dt_
      let t0 : ℚ :=
        if s.wi_ > ri1 then t0 - ((s.wi_ : ℚ) - (ri1 : ℚ)) * (1 / (s.rate_ : ℚ))
        else t0 - (((s.wi_ : ℚ) + (s.n_ : ℚ)) - (ri1 : ℚ)) * (1 / (s.rate_ : ℚ))
      let r := popLoop s.buf_ (fun x => (x : ℚ) / 32767) s.n_ s.wi_ n ri1 []
      .ok ({ s with ri_ := r.1 }, r.2, t0)

/-- The indices are inside the allocated buffer. -/
def WF (s : CardSoundIn) : Prop := 0 < s.n_ ∧ s.wi_ < s.n_ ∧ s.ri_ < s.n_

instance (s : CardSoundIn) : Decidable (WF s) := by unfold WF; infer_instance

/-- The samples one `cb` call offers to the buffer, in order:
`buf[i*channels_ + chan_]` for `i < frameCount`. -/
def frames (sin : CardSoundIn) (input : Nat → Int) (frameCount : Nat) : List Int :=
  (List.range frameCount).map (fun i => input (i * sin.channels_ + sin.chan_))

end CardSoundIn

/-! ## AirspySoundIn -/

/-- A complex sample (`std::complex<double>`, `liquid_float_complex`,
`airspyhf_complex_float_t`): real and imaginary part. -/
abbrev Cplx : Type := ℚ × ℚ

/-- The liquid-dsp FIR filter object behind `filter_`, an external library:
`push` is `firfilt_crcf_push`, `execute` is `firfilt_crcf_execute`, over a
filter state of type `F`. -/
structure Firfilt (F : Type) where
  push : F → Cplx → F
  execute : F → Cplx

/-- The fields of `airspyhf_transfer_t` that `cb2` reads. -/
structure airspyhf_transfer_t where
  samples : Nat → Cplx
  sample_count : Nat
  dropped_samples : Nat

/-- The fields of `AirspySoundIn` that `cb2`, `get` and `set_freq` use.  `Dev`
is the state of the receiver behind `device_`, `F` the state of the filter. -/
structure AirspySoundIn (Dev F : Type) where
  device_ : Dev
  hz_ : ℚ
  air_rate_ : Nat
  time_ : ℚ
  count_ : Nat
  rate_ : Nat
  serial_ : Nat
  n_ : Nat
  buf_ : Nat → Cplx
  wi_ : Nat
  ri_ : Nat
  filter_ : F

/-- The function `vreal`. -/
def vreal (a : List Cplx) : List ℚ := a.map (fun z => z.1)

/-- The function `vimag`. -/
def vimag (a : List Cplx) : List ℚ := a.map (fun z => z.2)

/-- The function `iq2usb`.  `analytic` (declared in `fft.h`) is a parameter; its
second argument, a label for the FFT plan cache, is left out.  `ssb` has
`ii.size()` elements. -/
def iq2usb (analytic : List ℚ → List Cplx) (a : List Cplx) : List ℚ :=
  let ii := vreal (analytic (vreal a))
  let qq := vimag (analytic (vimag a))
  (List.range ii.length).map (fun i => ii.getD i 0 - qq.getD i 0)

/-- The value of the library constant `AIRSPYHF_SUCCESS`. -/
def AIRSPYHF_SUCCESS : Int := 0

namespace AirspySoundIn

variable {Dev F : Type}

/-- Modelled from the spec: the accessor `rate()` is declared in `snd.h`, which
is not among the sources; a Source has one fixed `rate`, the field `rate_`. -/
def rate (s : AirspySoundIn Dev F) : Nat := s.rate_

/-- `AirspySoundIn::set_freq`.  `airspyhf_set_freq` is the receiver library's
call: it returns the receiver's new state and a status code.  The result is
the stderr output and, unless the process exits, the new state and the return
value. -/
def set_freq (airspyhf_set_freq : Dev → Int → Dev × Int) (s : AirspySoundIn Dev F) (hz : Int) :
    List Stderr × Option (AirspySoundIn Dev F × Int) :=
  let log := if hz > 31000000 ∧ hz < 60000000 then [Stderr.unsupportedFrequency hz] else []
  let r := airspyhf_set_freq s.device_ hz
  if r.2 ≠ AIRSPYHF_SUCCESS then (log ++ [Stderr.setFreqFailed hz], none)
  else (log, some ({ s with device_ := r.1, hz_ := (hz : ℚ) }, hz))

/-- The `for` loop of `AirspySoundIn::cb2`; the first argument is
`sample_count + dropped_samples - i`. -/
def cb2Loop (fl : Firfilt F) (transfer : airspyhf_transfer_t) :
    Nat → Nat → AirspySoundIn Dev F → AirspySoundIn Dev F
  | 0, _, s => s
  | k + 1, i, s =>
    let x : Cplx := if i < transfer.sample_count then transfer.samples i else (0, 0)
    let s1 := { s with filter_ := fl.push s.filter_ x }
    let y : Cplx := fl.execute s1.filter_
    if s1.count_ % (s1.air_rate_ / s1.rate_) = 0 then
      if (s1.wi_ + 1) % s1.n_ ≠ s1.ri_ then
        cb2Loop fl transfer k (i + 1)
          { s1 with
            buf_ := Function.update s1.buf_ s1.wi_ y
            wi_ := (s1.wi_ + 1) % s1.n_
            count_ := s1.count_ + 1 }
      else s1
    else cb2Loop fl transfer k (i + 1) { s1 with count_ := s1.count_ + 1 }

/-- `AirspySoundIn::cb2`; `now` is the value `now()` returns. -/
def cb2 (fl : Firfilt F) (now : ℚ) (s : AirspySoundIn Dev F) (transfer : airspyhf_transfer_t) :
    AirspySoundIn Dev F × List Stderr × Int :=
  let log :=
    if transfer.dropped_samples ≠ 0 then
      [Stderr.airspyDropped transfer.dropped_samples transfer.sample_count]
    else []
  (cb2Loop fl transfer (transfer.sample_count + transfer.dropped_samples) 0
      { s with time_ := now }, log, 0)

/-- The tail of `AirspySoundIn::get` after the window `v1` has been popped:
pad, demodulate, truncate. -/
def demod (analytic : List ℚ → List Cplx) (rate : Nat) (v1 : List Cplx) : List ℚ :=
  if v1.length < 2 then vreal v1
  else
    let olen := v1.length
    let quantum := if olen > rate * 5 then rate else if olen > 1000 then 1000 else 100
    let needed := quantum - (olen % quantum)
    let v1 := if needed ≠ quantum then v1 ++ List.replicate needed ((0, 0) : Cplx) else v1
    let v2 := iq2usb analytic v1
    if v2.length > olen then v2.take olen else v2

/-- `AirspySoundIn::get`: returns the new state, the returned vector and `t0`. -/
def get (analytic : List ℚ → List Cplx) (fuel : Nat) (s : AirspySoundIn Dev F) (n : Nat)
    (latest : Int) : Except Fault (AirspySoundIn Dev F × List ℚ × ℚ) :=
  if s.time_ < 0 ∧ s.wi_ = s.ri_ then .ok (s, [], -1)
  else
    match (if latest ≠ 0 then discardLoop s.n_ s.wi_ n fuel s.ri_ else .ok s.ri_) with
    | .error e => .error e
    | .ok ri1 =>
      let t0 : ℚ := s.time_
      let t0 : ℚ :=
        if s.wi_ ≥ ri1 then t0 - ((s.wi_ : ℚ) - (ri1 : ℚ)) * (1 / (s.rate_ : ℚ))
        else t0 - (((s.wi_ : ℚ) + (s.n_ : ℚ)) - (ri1 : ℚ)) * (1 / (s.rate_ : ℚ))
      let r := popLoop s.buf_ (fun z => z) s.n_ s.wi_ n ri1 []
      .ok ({ s with ri_ := r.1 }, demod analytic (rate s) r.2, t0)

/-- The indices are inside the allocated buffer and the rates are positive. -/
def WF (s : AirspySoundIn Dev F) : Prop :=
  0 < s.n_ ∧ s.wi_ < s.n_ ∧ s.ri_ < s.n_ ∧ 0 < s.rate_ ∧ 0 < s.air_rate_ / s.rate_

instance (s : AirspySoundIn Dev F) : Decidable (WF s) := by unfold WF; infer_instance

end AirspySoundIn

/-! ## The entry points for Python -/

/-- Modelled from the spec: the accessor `rate()` of a card source, declared in
`snd.h`, which is not among the sources; it is the field `rate_`. -/
def CardSoundIn.rate (s : CardSoundIn) : Nat := s.rate_

/-- The object behind the `void *` handle: one of the `SoundIn` subclasses
defined in `snd.cc`. -/
inductive SoundIn (Dev F : Type) where
  | card (c : CardSoundIn)
  | airspy (a : AirspySoundIn Dev F)

namespace SoundIn

variable {Dev F : Type}

/-- Virtual dispatch of `get`. -/
def get (analytic : List ℚ → List Cplx) (fuel : Nat) (sin : SoundIn Dev F) (n : Nat)
    (latest : Int) : Except Fault (SoundIn Dev F × List ℚ × ℚ) :=
  match sin with
  | card c =>
    match c.get fuel n latest with
    | .error e => .error e
    | .ok r => .ok (card r.1, r.2.1, r.2.2)
  | airspy a =>
    match a.get analytic fuel n latest with
    | .error e => .error e
    | .ok r => .ok (airspy r.1, r.2.1, r.2.2)

/-- Virtual dispatch of `rate`. -/
def rate : SoundIn Dev F → Nat
  | card c => c.rate
  | airspy a => a.rate

end SoundIn

/-- `ext_set_freq` on a handle that refers to an `AirspySoundIn`. -/
def ext_set_freq {Dev F : Type} (airspyhf_set_freq : Dev → Int → Dev × Int)
    (thing : AirspySoundIn Dev F) (hz : Int) :
    List Stderr × Option (AirspySoundIn Dev F × Int) :=
  thing.set_freq airspyhf_set_freq hz

/-! ## Specification vocabulary and example inputs -/

/-- Buffered cells read one at a time, as `popLoop` visits them. -/
def window {α : Type} (buf_ : Nat → α) (n_ : Nat) : Nat → Nat → List α
  | _, 0 => []
  | ri_, k + 1 => buf_ ri_ :: window buf_ n_ ((ri_ + 1) % n_) k

namespace CardSoundIn

/-- Number of buffered samples of a card source. -/
def occ (s : CardSoundIn) : Nat := occupancy s.n_ s.wi_ s.ri_

/-- The buffered samples of a card source, oldest first. -/
def queue (s : CardSoundIn) : List Int := contents s.buf_ s.n_ s.wi_ s.ri_

/-- One invocation of `cb`: its arguments. -/
structure Block where
  input : Nat → Int
  frameCount : Nat
  inputBufferAdcTime : ℚ
  statusFlags : Nat

/-- The producer callback invoked once per block, in order. -/
def cbs (s : CardSoundIn) : List Block → CardSoundIn
  | [] => s
  | b :: bs => cbs (cb s b.input b.frameCount b.inputBufferAdcTime b.statusFlags).1 bs

/-- All samples the blocks offer to the buffer, in order. -/
def pushed (s : CardSoundIn) : List Block → List Int
  | [] => []
  | b :: bs => frames s b.input b.frameCount ++ pushed s bs

/-- Samples `get` discards before reading: the backlog beyond `n` in latest mode. -/
def discarded (s : CardSoundIn) (n : Nat) (latest : Int) : Nat :=
  if latest ≠ 0 then s.occ - n else 0

end CardSoundIn

namespace AirspySoundIn

variable {Dev F : Type}

/-- Number of buffered samples of an SDR source. -/
def occ (s : AirspySoundIn Dev F) : Nat := occupancy s.n_ s.wi_ s.ri_

/-- The buffered samples of an SDR source, oldest first. -/
def queue (s : AirspySoundIn Dev F) : List Cplx := contents s.buf_ s.n_ s.wi_ s.ri_

/-- Samples `get` discards before reading: the backlog beyond `n` in latest mode. -/
def discarded (s : AirspySoundIn Dev F) (n : Nat) (latest : Int) : Nat :=
  if latest ≠ 0 then s.occ - n else 0

end AirspySoundIn

/-- A card source with sample rate 1 and a buffer of `n_` cells on which no
callback has run yet: nothing buffered, `time_` is -1.  For `n_ = 30` this is
the state `start()` leaves for rate 1. -/
def emptyCard (n_ : Nat) : CardSoundIn :=
  { card_ := 0, chan_ := 0, channels_ := 1, time_ := -1, rate_ := 1, dt_ := 0,
    n_ := n_, buf_ := fun _ => 0, wi_ := 0, ri_ := 0 }

/-- A callback block of `k` mono frames holding the values `1, 2, ..., k`,
stamped with ADC time `t`. -/
def countingBlock (k : Nat) (t : ℚ) : CardSoundIn.Block :=
  { input := fun i => (i : Int) + 1, frameCount := k, inputBufferAdcTime := t, statusFlags := 0 }

/-- The card source `emptyCard 30` after one callback delivering the frames
`1, 2, 3` with ADC time 97: three samples buffered, `time_` is 100. -/
def fedCard : CardSoundIn := CardSoundIn.cbs (emptyCard 30) [countingBlock 3 97]

/-- The source `fedCard` after the consumer has read its three samples. -/
def drainedCard : CardSoundIn := { fedCard with ri_ := 3 }

/-- An SDR source with rate 1 and raw rate 16 whose 60-cell buffer holds the
three samples `(1,0), (2,0), (3,0)`, the newest written at time 100. -/
def fedAirspy : AirspySoundIn Int Cplx :=
  { device_ := 10000000, hz_ := 10000000, air_rate_ := 16, time_ := 100, count_ := 48, rate_ := 1,
    serial_ := 0, n_ := 60, buf_ := fun i => ((i : ℚ) + 1, 0), wi_ := 3, ri_ := 0,
    filter_ := (3, 0) }

/-- A stand-in for `analytic` that keeps the length: each real sample becomes
the complex sample with that real part. -/
def analyticId (x : List ℚ) : List Cplx := x.map (fun r => (r, 0))

/-- A receiver whose state is the frequency it is tuned to and that accepts
every tuning request. -/
def tuneAlways (_device : Int) (hz : Int) : Int × Int := (hz, AIRSPYHF_SUCCESS)

/-- The raw inputs one transfer feeds to the filter, in loop order: the
received samples, then one zero per dropped sample. -/
def inputs (t : airspyhf_transfer_t) : List Cplx :=
  (List.range (t.sample_count + t.dropped_samples)).map
    (fun i => if i < t.sample_count then t.samples i else ((0, 0) : Cplx))

/-- The filter outputs for a stream of inputs: push one input, execute. -/
def filterOut {F : Type} (fl : Firfilt F) : F → List Cplx → List Cplx
  | _, [] => []
  | f, x :: xs => fl.execute (fl.push f x) :: filterOut fl (fl.push f x) xs

/-- Of a stream whose first element has stream position `c`, the elements at
positions divisible by `R`. -/
def retained {α : Type} (R : Nat) : Nat → List α → List α
  | _, [] => []
  | c, y :: ys => if c % R = 0 then y :: retained R (c + 1) ys else retained R (c + 1) ys

/-- What happens to an SDR source: the driver delivers a transfer (at wall
time `now`), or the consumer calls `get`. -/
inductive Event where
  | transfer (now : ℚ) (t : airspyhf_transfer_t)
  | read (n : Nat) (latest : Int)

/-- The raw inputs all transfers of a run deliver, in order. -/
def rawInputs : List Event → List Cplx
  | [] => []
  | Event.transfer _ t :: es => inputs t ++ rawInputs es
  | Event.read _ _ :: es => rawInputs es

namespace AirspySoundIn

variable {Dev F : Type}

/-- The source after one event.  A read is `get` with fuel `n_`. -/
def step (fl : Firfilt F) (analytic : List ℚ → List Cplx) (s : AirspySoundIn Dev F) :
    Event → AirspySoundIn Dev F
  | Event.transfer now t => (cb2 fl now s t).1
  | Event.read n latest =>
    match get analytic s.n_ s n latest with
    | .ok r => r.1
    | .error _ => s

/-- The samples one event appends to the ring buffer: what the queue holds
after the event beyond what it held before. -/
def written (fl : Firfilt F) (analytic : List ℚ → List Cplx) (s : AirspySoundIn Dev F) :
    Event → List Cplx
  | Event.transfer now t => (step fl analytic s (Event.transfer now t)).queue.drop s.occ
  | Event.read _ _ => []

/-- A run of events: the final source and every sample written to the ring
buffer during the run, in order. -/
def run (fl : Firfilt F) (analytic : List ℚ → List Cplx) :
    AirspySoundIn Dev F → List Event → AirspySoundIn Dev F × List Cplx
  | s, [] => (s, [])
  | s, e :: es =>
    ((run fl analytic (step fl analytic s e) es).1,
      written fl analytic s e ++ (run fl analytic (step fl analytic s e) es).2)

/-- No transfer of the run meets a full ring buffer: the outputs each transfer
has to write fit into the cells free when it arrives. -/
def neverFull (fl : Firfilt F) (analytic : List ℚ → List Cplx) :
    AirspySoundIn Dev F → List Event → Prop
  | _, [] => True
  | s, Event.transfer now t :: es =>
    (retained (s.air_rate_ / s.rate_) s.count_ (inputs t)).length ≤ s.n_ - 1 - s.occ ∧
      neverFull fl analytic (step fl analytic s (Event.transfer now t)) es
  | s, Event.read n latest :: es =>
    neverFull fl analytic (step fl analytic s (Event.read n latest)) es

end AirspySoundIn

/-- A filter that hands every input through unchanged. -/
def passThrough : Firfilt Cplx := { push := fun _ x => x, execute := fun f => f }

/-- An SDR source with rate 1, raw rate 16 (so `R = 16`) and an empty buffer
of 60 cells, before any transfer. -/
def idleAirspy : AirspySoundIn Int Cplx :=
  { device_ := 10000000, hz_ := 10000000, air_rate_ := 16, time_ := -1, count_ := 0, rate_ := 1,
    serial_ := 0, n_ := 60, buf_ := fun _ => (0, 0), wi_ := 0, ri_ := 0, filter_ := (0, 0) }

/-- An SDR source whose raw rate equals its rate (`R = 1`), with an empty
buffer of 10 cells. -/
def smallAirspy : AirspySoundIn Int Cplx :=
  { device_ := 10000000, hz_ := 10000000, air_rate_ := 1, time_ := -1, count_ := 0, rate_ := 1,
    serial_ := 0, n_ := 10, buf_ := fun _ => (0, 0), wi_ := 0, ri_ := 0, filter_ := (0, 0) }

/-- A transfer of `k` received samples `(1,0), (2,0), ...` and `d` dropped ones. -/
def countingTransfer (k d : Nat) : airspyhf_transfer_t :=
  { samples := fun i => ((i : ℚ) + 1, 0), sample_count := k, dropped_samples := d }

namespace AirspySoundIn

variable {Dev F : Type}

/-- Whether a run meets a full ring buffer can be computed. -/
instance neverFullDecidable (fl : Firfilt F) (analytic : List ℚ → List Cplx) :
    ∀ (es : List Event) (s : AirspySoundIn Dev F), Decidable (neverFull fl analytic s es)
  | [], _ => isTrue trivial
  | Event.transfer _ _ :: es, _ =>
    @instDecidableAnd _ _ _ (neverFullDecidable fl analytic es _)
  | Event.read _ _ :: es, _ => neverFullDecidable fl analytic es _

end AirspySoundIn

/-! ## Theorems -/

theorem succ_mod {n r : Nat} (h : r < n) : (r + 1) % n = if r + 1 = n then 0 else r + 1 := by
  split
  · next h1 => rw [h1]; exact Nat.mod_self n
  · next h1 => exact Nat.mod_eq_of_lt (by omega)

theorem occupancy_cases {n w r : Nat} (hw : w < n) (hr : r < n) :
    (r ≤ w ∧ occupancy n w r = w - r) ∨ (w < r ∧ occupancy n w r = w + n - r) := by
  unfold occupancy
  by_cases h : r ≤ w
  · left
    refine ⟨h, ?_⟩
    have : w + n - r = (w - r) + n := by omega
    rw [this, Nat.add_mod_right]
    exact Nat.mod_eq_of_lt (by omega)
  · right
    refine ⟨by omega, ?_⟩
    exact Nat.mod_eq_of_lt (by omega)

theorem occupancy_lt {n : Nat} (hn : 0 < n) (w r : Nat) : occupancy n w r < n :=
  Nat.mod_lt _ hn

theorem occupancy_eq_zero_iff {n w r : Nat} (hw : w < n) (hr : r < n) :
    occupancy n w r = 0 ↔ w = r := by
  rcases occupancy_cases hw hr with ⟨h1, h2⟩ | ⟨h1, h2⟩ <;> omega

theorem occupancy_pop {n w r : Nat} (hw : w < n) (hr : r < n) (h : r ≠ w) :
    occupancy n w ((r + 1) % n) + 1 = occupancy n w r := by
  have hr1 : (r + 1) % n < n := Nat.mod_lt _ (by omega)
  have e := succ_mod hr
  rcases occupancy_cases hw hr with ⟨h1, h2⟩ | ⟨h1, h2⟩ <;>
  rcases occupancy_cases hw hr1 with ⟨h3, h4⟩ | ⟨h3, h4⟩ <;>
  split at e <;> omega

theorem full_iff {n w r : Nat} (hw : w < n) (hr : r < n) :
    (w + 1) % n = r ↔ occupancy n w r = n - 1 := by
  have e := succ_mod hw
  rcases occupancy_cases hw hr with ⟨h1, h2⟩ | ⟨h1, h2⟩ <;>
  split at e <;> omega

theorem occupancy_push {n w r : Nat} (hw : w < n) (hr : r < n) (h : (w + 1) % n ≠ r) :
    occupancy n ((w + 1) % n) r = occupancy n w r + 1 := by
  have hw1 : (w + 1) % n < n := Nat.mod_lt _ (by omega)
  have e := succ_mod hw
  rcases occupancy_cases hw hr with ⟨h1, h2⟩ | ⟨h1, h2⟩ <;>
  rcases occupancy_cases hw1 hr with ⟨h3, h4⟩ | ⟨h3, h4⟩ <;>
  split at e <;> omega

theorem add_mod_succ {n : Nat} (r j : Nat) : ((r + 1) % n + j) % n = (r + (j + 1)) % n := by
  rw [Nat.add_mod, Nat.mod_mod, ← Nat.add_mod]; congr 1; omega

theorem window_eq_map {α : Type} (buf_ : Nat → α) (n_ : Nat) (k : Nat) :
    ∀ ri_, ri_ < n_ → window buf_ n_ ri_ k = (List.range k).map (fun j => buf_ ((ri_ + j) % n_)) := by
  induction k with
  | zero => intro ri_ _; simp [window]
  | succ k ih =>
    intro ri_ h
    rw [window, ih _ (Nat.mod_lt _ (by omega)), List.range_succ_eq_map, List.map_cons, List.map_map]
    simp only [Nat.add_zero, Nat.mod_eq_of_lt h]
    congr 1
    apply List.map_congr_left
    intro j _
    simp only [Function.comp, add_mod_succ]

theorem contents_eq_window {α : Type} (buf_ : Nat → α) {n_ wi_ ri_ : Nat} (hr : ri_ < n_) :
    contents buf_ n_ wi_ ri_ = window buf_ n_ ri_ (occupancy n_ wi_ ri_) := by
  rw [window_eq_map _ _ _ _ hr]; rfl

theorem contents_length {α : Type} (buf_ : Nat → α) (n_ wi_ ri_ : Nat) :
    (contents buf_ n_ wi_ ri_).length = occupancy n_ wi_ ri_ := by
  simp [contents]

theorem occupancy_advance {n w : Nat} (hw : w < n) (d : Nat) :
    ∀ r, r < n → d ≤ occupancy n w r → occupancy n w ((r + d) % n) = occupancy n w r - d := by
  induction d with
  | zero => intro r hr _; simp [Nat.mod_eq_of_lt hr]
  | succ d ih =>
    intro r hr hd
    have hne : r ≠ w := by
      intro e; have := (occupancy_eq_zero_iff hw hr).2 e.symm; omega
    have hp := occupancy_pop hw hr hne
    rw [← add_mod_succ, ih _ (Nat.mod_lt _ (by omega)) (by omega)]
    omega

theorem popLoop_eq {α β : Type} (buf_ : Nat → α) (conv : α → β) {n_ wi_ : Nat} (hw : wi_ < n_)
    (k : Nat) : ∀ ri_ v, ri_ < n_ →
    popLoop buf_ conv n_ wi_ k ri_ v =
      ((ri_ + min k (occupancy n_ wi_ ri_)) % n_,
        v ++ (window buf_ n_ ri_ (min k (occupancy n_ wi_ ri_))).map conv) := by
  induction k with
  | zero => intro r v hr; simp [popLoop, window, Nat.mod_eq_of_lt hr]
  | succ k ih =>
    intro r v hr
    rw [popLoop]
    by_cases h : r = wi_
    · have h0 := (occupancy_eq_zero_iff hw hr).2 h.symm
      rw [if_pos h, h0]
      simp [window, Nat.mod_eq_of_lt hr]
    · have hp := occupancy_pop hw hr h
      rw [if_neg h, ih _ _ (Nat.mod_lt _ (by omega))]
      have hm : min (k + 1) (occupancy n_ wi_ r) = min k (occupancy n_ wi_ ((r + 1) % n_)) + 1 := by
        omega
      rw [hm, add_mod_succ, window]
      simp

theorem discardLoop_eq {n_ wi_ : Nat} (hw : wi_ < n_) (n : Nat) (fuel : Nat) :
    ∀ ri_, ri_ < n_ → occupancy n_ wi_ ri_ - n ≤ fuel →
    discardLoop n_ wi_ n fuel ri_ = .ok ((ri_ + (occupancy n_ wi_ ri_ - n)) % n_) := by
  induction fuel with
  | zero =>
    intro r hr hf
    have hle : ¬ (wi_ + n_ - r) % n_ > n := by unfold occupancy at hf; omega
    have h0 : occupancy n_ wi_ r - n = 0 := by omega
    rw [discardLoop, if_neg hle, h0]; simp [Nat.mod_eq_of_lt hr]
  | succ fuel ih =>
    intro r hr hf
    rw [discardLoop]
    by_cases hgt : (wi_ + n_ - r) % n_ > n
    · rw [if_pos hgt]
      have hocc : occupancy n_ wi_ r > n := hgt
      have hne : r ≠ wi_ := by
        intro e; have := (occupancy_eq_zero_iff hw hr).2 e.symm; omega
      have hp := occupancy_pop hw hr hne
      rw [ih _ (Nat.mod_lt _ (by omega)) (by omega), add_mod_succ]
      congr 2; omega
    · rw [if_neg hgt]
      have h0 : occupancy n_ wi_ r - n = 0 := by unfold occupancy; omega
      rw [h0]; simp [Nat.mod_eq_of_lt hr]

theorem window_drop {α : Type} (buf_ : Nat → α) (n_ : Nat) (d : Nat) :
    ∀ ri_ k, ri_ < n_ → d ≤ k →
    window buf_ n_ ((ri_ + d) % n_) (k - d) = (window buf_ n_ ri_ k).drop d := by
  induction d with
  | zero => intro r k hr _; simp [Nat.mod_eq_of_lt hr]
  | succ d ih =>
    intro r k hr hd
    obtain ⟨k', rfl⟩ : ∃ k', k = k' + 1 := ⟨k - 1, by omega⟩
    rw [window, List.drop_succ_cons, ← ih _ _ (Nat.mod_lt _ (by omega)) (by omega), add_mod_succ]
    congr 1; omega

theorem window_update {α : Type} (buf_ : Nat → α) {n_ wi_ : Nat} (hw : wi_ < n_) (x : α)
    (k : Nat) : ∀ ri_, ri_ < n_ → occupancy n_ wi_ ri_ = k →
    window (Function.update buf_ wi_ x) n_ ri_ (k + 1) = window buf_ n_ ri_ k ++ [x] := by
  induction k with
  | zero =>
    intro r hr h
    have : wi_ = r := (occupancy_eq_zero_iff hw hr).1 h
    subst this
    simp [window]
  | succ k ih =>
    intro r hr h
    have hne : r ≠ wi_ := by
      intro e; have := (occupancy_eq_zero_iff hw hr).2 e.symm; omega
    have hp := occupancy_pop hw hr hne
    rw [window, ih _ (Nat.mod_lt _ (by omega)) (by omega), Function.update_noteq hne]
    rfl

namespace CardSoundIn

theorem card_queue_length (s : CardSoundIn) : s.queue.length = s.occ := contents_length _ _ _ _

theorem cbLoop_fields (input : Nat → Int) (k : Nat) : ∀ i s,
    (cbLoop input k i s).1 =
      { s with buf_ := (cbLoop input k i s).1.buf_, wi_ := (cbLoop input k i s).1.wi_ } := by
  induction k with
  | zero => intro i s; rfl
  | succ k ih =>
    intro i s
    rw [cbLoop]
    split
    · rw [ih]
    · rfl

theorem cbLoop_queue (input : Nat → Int) (k : Nat) : ∀ i s, WF s →
    WF (cbLoop input k i s).1 ∧
    (cbLoop input k i s).1.queue =
      s.queue ++ ((List.range k).map
        (fun j => input ((i + j) * s.channels_ + s.chan_))).take (s.n_ - 1 - s.occ) := by
  induction k with
  | zero => intro i s h; simp [cbLoop, h]
  | succ k ih =>
    intro i s h
    obtain ⟨hn, hw, hr⟩ := h
    rw [cbLoop]
    by_cases hfull : (s.wi_ + 1) % s.n_ = s.ri_
    · rw [if_neg (by simpa using hfull)]
      have := (full_iff hw hr).1 hfull
      refine ⟨⟨hn, hw, hr⟩, ?_⟩
      simp [occ, this]
    · rw [if_pos hfull]
      have hocc := occupancy_push hw hr hfull
      have hlt := occupancy_lt hn ((s.wi_ + 1) % s.n_) s.ri_
      have hwf : WF { s with
          buf_ := Function.update s.buf_ s.wi_ (input (i * s.channels_ + s.chan_))
          wi_ := (s.wi_ + 1) % s.n_ } := ⟨hn, Nat.mod_lt _ hn, hr⟩
      obtain ⟨h1, h2⟩ := ih (i + 1) _ hwf
      refine ⟨h1, ?_⟩
      rw [h2]
      have hq : queue { s with
          buf_ := Function.update s.buf_ s.wi_ (input (i * s.channels_ + s.chan_))
          wi_ := (s.wi_ + 1) % s.n_ } = s.queue ++ [input (i * s.channels_ + s.chan_)] := by
        simp only [queue]
        rw [contents_eq_window _ hr, contents_eq_window _ hr, hocc]
        exact window_update _ hw _ _ _ hr rfl
      have hm : s.n_ - 1 - s.occ = (s.n_ - 1 - (occupancy s.n_ ((s.wi_ + 1) % s.n_) s.ri_)) + 1 := by
        simp only [occ]; omega
      rw [hq, hm, List.range_succ_eq_map, List.map_cons, List.take_succ_cons, List.map_map]
      simp only [occ, List.append_assoc, List.singleton_append, Nat.add_zero]
      congr 3
      apply List.map_congr_left
      intro j _
      have e : i + 1 + j = i + (j + 1) := by omega
      simp only [Function.comp, Nat.succ_eq_add_one, e]

theorem cb_fields (s : CardSoundIn) (input : Nat → Int) (frameCount : Nat) (adc : ℚ)
    (flags : Nat) :
    (cb s input frameCount adc flags).1 =
      { s with
        buf_ := (cb s input frameCount adc flags).1.buf_
        wi_ := (cb s input frameCount adc flags).1.wi_
        time_ := adc + (frameCount : ℚ) * (1 / (s.rate_ : ℚ)) } := by
  simp only [cb]
  rw [cbLoop_fields]

theorem cb_queue (s : CardSoundIn) (input : Nat → Int) (frameCount : Nat) (adc : ℚ)
    (flags : Nat) (h : WF s) :
    WF (cb s input frameCount adc flags).1 ∧
    (cb s input frameCount adc flags).1.queue =
      s.queue ++ (frames s input frameCount).take (s.n_ - 1 - s.occ) := by
  obtain ⟨h1, h2⟩ := cbLoop_queue input frameCount 0 s h
  refine ⟨h1, ?_⟩
  simp only [Nat.zero_add] at h2
  exact h2

end CardSoundIn

theorem add_mod_add (n r d m : Nat) : ((r + d) % n + m) % n = (r + d + m) % n := by
  rw [Nat.add_mod, Nat.mod_mod, ← Nat.add_mod]

/-- The amount `CardSoundIn::get` subtracts from the time anchor, in samples:
the occupancy, except that an empty buffer counts as `n_`. -/
theorem occupancy_cast {n w r : Nat} (hw : w < n) (hr : r < n) :
    (if w > r then ((w : ℚ) - (r : ℚ)) else (((w : ℚ) + (n : ℚ)) - (r : ℚ))) =
      if occupancy n w r = 0 then (n : ℚ) else ((occupancy n w r : ℕ) : ℚ) := by
  rcases occupancy_cases hw hr with ⟨h1, h2⟩ | ⟨h1, h2⟩
  · by_cases e : w = r
    · subst e
      have : occupancy n w w = 0 := by omega
      simp [this]
    · have h3 : w > r := by omega
      have h4 : occupancy n w r ≠ 0 := by omega
      rw [if_pos h3, if_neg h4, h2, Nat.cast_sub h1]
  · have h3 : ¬ w > r := by omega
    have h4 : occupancy n w r ≠ 0 := by omega
    rw [if_neg h3, if_neg h4, h2, Nat.cast_sub (by omega)]
    push_cast; ring

theorem window_take {α : Type} (buf_ : Nat → α) (n_ : Nat) (m : Nat) :
    ∀ ri_ k, window buf_ n_ ri_ (min m k) = (window buf_ n_ ri_ k).take m := by
  induction m with
  | zero => intro r k; simp [window]
  | succ m ih =>
    intro r k
    cases k with
    | zero => simp [window]
    | succ k =>
      rw [Nat.succ_min_succ, window, window, List.take_succ_cons, ih]

namespace CardSoundIn

theorem card_discarded_le (s : CardSoundIn) (n : Nat) (latest : Int) : discarded s n latest ≤ s.occ := by
  unfold discarded; split <;> omega

theorem card_get_eq (fuel : Nat) (s : CardSoundIn) (n : Nat) (latest : Int) (h : WF s)
    (hf : latest ≠ 0 → s.occ - n ≤ fuel) :
    get fuel s n latest = .ok
      ({ s with ri_ := (s.ri_ + discarded s n latest + min n (s.occ - discarded s n latest)) % s.n_ },
        ((s.queue.drop (discarded s n latest)).take n).map (fun x : Int => (x : ℚ) / 32767),
        if s.time_ < 0 ∧ s.wi_ = s.ri_ then -1
        else s.time_ + s.dt_ -
          (if s.occ - discarded s n latest = 0 then (s.n_ : ℚ)
            else ((s.occ - discarded s n latest : ℕ) : ℚ)) * (1 / (s.rate_ : ℚ))) := by
  obtain ⟨hn, hw, hr⟩ := h
  unfold get
  by_cases hg : s.time_ < 0 ∧ s.wi_ = s.ri_
  · have h0 : s.occ = 0 := (occupancy_eq_zero_iff hw hr).2 hg.2
    have hd : discarded s n latest = 0 := by have := card_discarded_le s n latest; omega
    have hq : s.queue = [] := List.eq_nil_of_length_eq_zero (by rw [card_queue_length, h0])
    rw [if_pos hg, if_pos hg, hd, h0, hq]
    simp [Nat.mod_eq_of_lt hr]
  · rw [if_neg hg, if_neg hg]
    have hdl : (if latest ≠ 0 then discardLoop s.n_ s.wi_ n fuel s.ri_ else .ok s.ri_) =
        .ok ((s.ri_ + discarded s n latest) % s.n_) := by
      unfold discarded
      by_cases hl : latest ≠ 0
      · rw [if_pos hl, if_pos hl]; exact discardLoop_eq hw n fuel _ hr (hf hl)
      · rw [if_neg hl, if_neg hl]; simp [Nat.mod_eq_of_lt hr]
    rw [hdl]
    have hr1 : (s.ri_ + discarded s n latest) % s.n_ < s.n_ := Nat.mod_lt _ hn
    have ho : occupancy s.n_ s.wi_ ((s.ri_ + discarded s n latest) % s.n_) =
        s.occ - discarded s n latest := occupancy_advance hw _ _ hr (card_discarded_le s n latest)
    simp only []
    rw [popLoop_eq _ _ hw _ _ _ hr1, ho, add_mod_add]
    have hwin : window s.buf_ s.n_ ((s.ri_ + discarded s n latest) % s.n_)
        (min n (s.occ - discarded s n latest)) =
        (s.queue.drop (discarded s n latest)).take n := by
      have e1 := window_drop s.buf_ s.n_ (discarded s n latest) s.ri_ s.occ hr
        (card_discarded_le s n latest)
      rw [queue, contents_eq_window _ hr, ← occ, ← e1, window_take]
    rw [hwin]
    have hc := occupancy_cast hw hr1
    rw [ho] at hc
    have ht : (if s.wi_ > (s.ri_ + discarded s n latest) % s.n_ then
          s.time_ + s.dt_ -
            ((s.wi_ : ℚ) - (((s.ri_ + discarded s n latest) % s.n_ : ℕ) : ℚ)) * (1 / (s.rate_ : ℚ))
        else s.time_ + s.dt_ -
            (((s.wi_ : ℚ) + (s.n_ : ℚ)) - (((s.ri_ + discarded s n latest) % s.n_ : ℕ) : ℚ)) *
              (1 / (s.rate_ : ℚ))) =
        s.time_ + s.dt_ -
          (if s.occ - discarded s n latest = 0 then (s.n_ : ℚ)
            else ((s.occ - discarded s n latest : ℕ) : ℚ)) * (1 / (s.rate_ : ℚ)) := by
      rw [← hc]; split <;> rfl
    rw [ht, List.nil_append]

end CardSoundIn

theorem occupancy_cast_ge {n w r : Nat} (hw : w < n) (hr : r < n) :
    (if w ≥ r then ((w : ℚ) - (r : ℚ)) else (((w : ℚ) + (n : ℚ)) - (r : ℚ))) =
      ((occupancy n w r : ℕ) : ℚ) := by
  rcases occupancy_cases hw hr with ⟨h1, h2⟩ | ⟨h1, h2⟩
  · rw [if_pos h1, h2, Nat.cast_sub h1]
  · have h3 : ¬ w ≥ r := by omega
    rw [if_neg h3, h2, Nat.cast_sub (by omega)]
    push_cast; ring

theorem iq2usb_length (analytic : List ℚ → List Cplx)
    (ha : ∀ x, (analytic x).length = x.length) (a : List Cplx) :
    (iq2usb analytic a).length = a.length := by
  simp [iq2usb, vreal, ha]

namespace AirspySoundIn

variable {Dev F : Type}

theorem airspy_queue_length (s : AirspySoundIn Dev F) : s.queue.length = s.occ :=
  contents_length _ _ _ _

theorem airspy_discarded_le (s : AirspySoundIn Dev F) (n : Nat) (latest : Int) :
    discarded s n latest ≤ s.occ := by
  unfold discarded; split <;> omega

theorem demod_length (analytic : List ℚ → List Cplx)
    (ha : ∀ v, (iq2usb analytic v).length = v.length) (rate : Nat) (v1 : List Cplx) :
    (demod analytic rate v1).length = v1.length := by
  have key : ∀ v : List Cplx, v1.length ≤ v.length →
      (if (iq2usb analytic v).length > v1.length then (iq2usb analytic v).take v1.length
        else iq2usb analytic v).length = v1.length := by
    intro v hv
    split
    · next h => rw [List.length_take]; omega
    · next h => rw [ha v] at h ⊢; omega
  unfold demod
  split
  · simp [vreal]
  · simp only []
    apply key
    have pad : ∀ (c : Prop) [Decidable c] (k : Nat),
        v1.length ≤ (if c then v1 ++ List.replicate k ((0, 0) : Cplx) else v1).length := by
      intro c _ k
      split <;> simp
    exact pad _ _

theorem demod_short (analytic : List ℚ → List Cplx) (rate : Nat) (v1 : List Cplx)
    (h : v1.length < 2) : demod analytic rate v1 = vreal v1 := by
  unfold demod
  rw [if_pos h]

theorem demod_long (analytic : List ℚ → List Cplx) (rate : Nat) (v1 : List Cplx)
    (h : 2 ≤ v1.length) :
    ∃ pad, demod analytic rate v1 =
      (iq2usb analytic (v1 ++ List.replicate pad ((0, 0) : Cplx))).take v1.length := by
  have key : ∀ v : List Cplx,
      (if (iq2usb analytic v).length > v1.length then (iq2usb analytic v).take v1.length
        else iq2usb analytic v) = (iq2usb analytic v).take v1.length := by
    intro v
    split
    · rfl
    · next hle => rw [List.take_of_length_le (by omega)]
  have fin : ∀ (c : Prop) [Decidable c] (k : Nat), ∃ p,
      (iq2usb analytic (if c then v1 ++ List.replicate k ((0, 0) : Cplx) else v1)).take
          v1.length =
        (iq2usb analytic (v1 ++ List.replicate p ((0, 0) : Cplx))).take v1.length := by
    intro c _ k
    split
    · exact ⟨k, rfl⟩
    · exact ⟨0, by simp⟩
  unfold demod
  rw [if_neg (by omega)]
  simp only []
  rw [key]
  exact fin _ _

theorem demod_length_le (analytic : List ℚ → List Cplx) (rate : Nat) (v1 : List Cplx) :
    (demod analytic rate v1).length ≤ v1.length := by
  by_cases h : v1.length < 2
  · rw [demod_short analytic rate v1 h]; simp [vreal]
  · obtain ⟨p, hp⟩ := demod_long analytic rate v1 (by omega)
    rw [hp, List.length_take]; omega

theorem airspy_get_eq (analytic : List ℚ → List Cplx) (fuel : Nat) (s : AirspySoundIn Dev F) (n : Nat)
    (latest : Int) (h : WF s) (hf : latest ≠ 0 → s.occ - n ≤ fuel) :
    get analytic fuel s n latest = .ok
      ({ s with ri_ := (s.ri_ + discarded s n latest + min n (s.occ - discarded s n latest)) % s.n_ },
        demod analytic s.rate_ ((s.queue.drop (discarded s n latest)).take n),
        if s.time_ < 0 ∧ s.wi_ = s.ri_ then -1
        else s.time_ - ((s.occ - discarded s n latest : ℕ) : ℚ) * (1 / (s.rate_ : ℚ))) := by
  obtain ⟨hn, hw, hr, _, _⟩ := h
  unfold get
  by_cases hg : s.time_ < 0 ∧ s.wi_ = s.ri_
  · have h0 : s.occ = 0 := (occupancy_eq_zero_iff hw hr).2 hg.2
    have hd : discarded s n latest = 0 := by have := airspy_discarded_le s n latest; omega
    have hq : s.queue = [] := List.eq_nil_of_length_eq_zero (by rw [airspy_queue_length, h0])
    rw [if_pos hg, if_pos hg, hd, h0, hq]
    simp [Nat.mod_eq_of_lt hr, demod, vreal]
  · rw [if_neg hg, if_neg hg]
    have hdl : (if latest ≠ 0 then discardLoop s.n_ s.wi_ n fuel s.ri_ else .ok s.ri_) =
        .ok ((s.ri_ + discarded s n latest) % s.n_) := by
      unfold discarded
      by_cases hl : latest ≠ 0
      · rw [if_pos hl, if_pos hl]; exact discardLoop_eq hw n fuel _ hr (hf hl)
      · rw [if_neg hl, if_neg hl]; simp [Nat.mod_eq_of_lt hr]
    rw [hdl]
    have hr1 : (s.ri_ + discarded s n latest) % s.n_ < s.n_ := Nat.mod_lt _ hn
    have ho : occupancy s.n_ s.wi_ ((s.ri_ + discarded s n latest) % s.n_) =
        s.occ - discarded s n latest := occupancy_advance hw _ _ hr (airspy_discarded_le s n latest)
    simp only []
    rw [popLoop_eq _ _ hw _ _ _ hr1, ho, add_mod_add]
    have hwin : window s.buf_ s.n_ ((s.ri_ + discarded s n latest) % s.n_)
        (min n (s.occ - discarded s n latest)) =
        (s.queue.drop (discarded s n latest)).take n := by
      have e1 := window_drop s.buf_ s.n_ (discarded s n latest) s.ri_ s.occ hr
        (airspy_discarded_le s n latest)
      rw [queue, contents_eq_window _ hr, ← occ, ← e1, window_take]
    rw [hwin]
    have hc := @occupancy_cast_ge s.n_ _ _ hw hr1
    rw [ho] at hc
    have ht : (if s.wi_ ≥ (s.ri_ + discarded s n latest) % s.n_ then
          s.time_ -
            ((s.wi_ : ℚ) - (((s.ri_ + discarded s n latest) % s.n_ : ℕ) : ℚ)) * (1 / (s.rate_ : ℚ))
        else s.time_ -
            (((s.wi_ : ℚ) + (s.n_ : ℚ)) - (((s.ri_ + discarded s n latest) % s.n_ : ℕ) : ℚ)) *
              (1 / (s.rate_ : ℚ))) =
        s.time_ - ((s.occ - discarded s n latest : ℕ) : ℚ) * (1 / (s.rate_ : ℚ)) := by
      rw [← hc]; split <;> rfl
    rw [ht, List.nil_append, List.map_id', rate]

end AirspySoundIn

namespace CardSoundIn

theorem occ_eq_zero_iff (s : CardSoundIn) (h : WF s) : s.occ = 0 ↔ s.wi_ = s.ri_ :=
  occupancy_eq_zero_iff h.2.1 h.2.2

theorem occ_lt (s : CardSoundIn) (h : WF s) : s.occ < s.n_ := occupancy_lt h.1 _ _

theorem pushed_congr (s t : CardSoundIn) (h1 : t.channels_ = s.channels_) (h2 : t.chan_ = s.chan_)
    (bs : List Block) : pushed t bs = pushed s bs := by
  induction bs with
  | nil => rfl
  | cons b bs ih => simp only [pushed, frames, h1, h2, ih]

theorem cbs_queue (bs : List Block) : ∀ s : CardSoundIn, WF s →
    WF (cbs s bs) ∧ (cbs s bs).n_ = s.n_ ∧ (cbs s bs).ri_ = s.ri_ ∧
    (cbs s bs).queue = s.queue ++ (pushed s bs).take (s.n_ - 1 - s.occ) := by
  induction bs with
  | nil => intro s h; simp [cbs, pushed, h]
  | cons b bs ih =>
    intro s h
    obtain ⟨h1, h2⟩ := cb_queue s b.input b.frameCount b.inputBufferAdcTime b.statusFlags h
    have hf := cb_fields s b.input b.frameCount b.inputBufferAdcTime b.statusFlags
    have hn : (cb s b.input b.frameCount b.inputBufferAdcTime b.statusFlags).1.n_ = s.n_ := by
      rw [hf]
    have hri : (cb s b.input b.frameCount b.inputBufferAdcTime b.statusFlags).1.ri_ = s.ri_ := by
      rw [hf]
    have hch : (cb s b.input b.frameCount b.inputBufferAdcTime b.statusFlags).1.channels_ =
        s.channels_ := by rw [hf]
    have hcn : (cb s b.input b.frameCount b.inputBufferAdcTime b.statusFlags).1.chan_ =
        s.chan_ := by rw [hf]
    obtain ⟨g1, g2, g3, g4⟩ := ih _ h1
    have hocc : (cb s b.input b.frameCount b.inputBufferAdcTime b.statusFlags).1.occ =
        s.occ + min (s.n_ - 1 - s.occ) (frames s b.input b.frameCount).length := by
      rw [← card_queue_length, h2, List.length_append, List.length_take, card_queue_length]
    refine ⟨g1, by rw [cbs, g2, hn], by rw [cbs, g3, hri], ?_⟩
    rw [cbs, g4, h2, pushed_congr s _ hch hcn, hn, hocc, pushed, List.take_append_eq_append_take,
      List.append_assoc]
    congr 2
    congr 1
    omega

/-- C1 (amended): samples pushed by `CardSoundIn::cb`, in any number of
callbacks, into an initially empty buffer, with a total count of at most
`n_ - 1` (one cell stays free), are all returned by a following
`get(count, t0, 0)`, each as `x / 32767`, in the order pushed, and the buffer
is empty afterwards. -/
theorem get_returns_pushed (fuel : Nat) (s : CardSoundIn) (bs : List Block) (h : WF s)
    (hempty : s.wi_ = s.ri_) (hcap : (pushed s bs).length ≤ s.n_ - 1) :
    ∃ s' t0, get fuel (cbs s bs) (pushed s bs).length 0 =
        .ok (s', (pushed s bs).map (fun x : Int => (x : ℚ) / 32767), t0) ∧
      s'.wi_ = s'.ri_ := by
  obtain ⟨g1, g2, g3, g4⟩ := cbs_queue bs s h
  have h0 : s.occ = 0 := (occ_eq_zero_iff s h).2 hempty
  have hq0 : s.queue = [] := List.eq_nil_of_length_eq_zero (by rw [card_queue_length, h0])
  rw [hq0, h0, List.nil_append, Nat.sub_zero, List.take_of_length_le hcap] at g4
  have hocc : (cbs s bs).occ = (pushed s bs).length := by rw [← card_queue_length, g4]
  have hd : discarded (cbs s bs) (pushed s bs).length 0 = 0 := by simp [discarded]
  rw [card_get_eq fuel (cbs s bs) _ 0 g1 (by simp), hd, g4, List.drop_zero,
    List.take_of_length_le (Nat.le_refl _)]
  refine ⟨_, _, rfl, ?_⟩
  simp only [hocc, Nat.add_zero, Nat.sub_zero, Nat.min_self]
  have := occupancy_advance g1.2.1 (cbs s bs).occ _ g1.2.2 (Nat.le_refl _)
  rw [← occ, Nat.sub_self] at this
  have h2 := (occupancy_eq_zero_iff g1.2.1 (Nat.mod_lt _ g1.1)).1 this
  rw [← hocc]; exact h2

/-- Witness for C1 (amended): the spec scenario, 50 values into a buffer of
1000 cells. -/
theorem get_returns_pushed_witness :
    WF (emptyCard 1000) ∧
    ∃ s' t0, get 0 (cbs (emptyCard 1000) [countingBlock 50 0]) 50 0 =
        .ok (s', (List.map (fun i : Nat => (i : Int) + 1) (List.range 50)).map
          (fun x : Int => (x : ℚ) / 32767), t0) ∧ s'.wi_ = s'.ri_ :=
  ⟨by decide, get_returns_pushed 0 (emptyCard 1000) [countingBlock 50 0] (by decide) rfl (by decide)⟩

end CardSoundIn

theorem add_occupancy_mod {n w r : Nat} (hw : w < n) (hr : r < n) :
    (r + occupancy n w r) % n = w := by
  have := occupancy_advance hw (occupancy n w r) r hr (Nat.le_refl _)
  rw [Nat.sub_self] at this
  exact ((occupancy_eq_zero_iff hw (Nat.mod_lt _ (by omega))).1 this).symm

namespace CardSoundIn

/-- C1 (counterexample): with `n_ = 30`, one callback pushing 30 samples into
the empty buffer stays within "count does not exceed `n_`", yet the following
`get(30, t0, 0)` does not return the 30 pushed samples. -/
theorem get_after_capacity_pushes :
    (pushed (emptyCard 30) [countingBlock 30 0]).length ≤ (emptyCard 30).n_ ∧
    ∀ s' t0, get 0 (cbs (emptyCard 30) [countingBlock 30 0])
        (pushed (emptyCard 30) [countingBlock 30 0]).length 0 ≠
      .ok (s', (pushed (emptyCard 30) [countingBlock 30 0]).map (fun x : Int => (x : ℚ) / 32767),
        t0) := by
  refine ⟨by decide, ?_⟩
  intro s' t0 h
  rw [card_get_eq 0 _ _ 0 (by decide) (by simp)] at h
  have h1 := congrArg (fun r => match r with
    | Except.ok x => x.2.1.length
    | Except.error _ => 0) h
  simp only [List.length_map, List.length_take, List.length_drop, card_queue_length] at h1
  revert h1
  decide

end CardSoundIn

theorem iq2usb_analyticId (x : List Cplx) : iq2usb analyticId x = x.map (fun z => z.1) := by
  apply List.ext_getElem
  · simp [iq2usb, analyticId, vreal]
  · intro i h1 h2
    simp [iq2usb, analyticId, vreal, vimag, List.getD_eq_getElem?_getD] at h1 h2 ⊢
    rw [List.getElem?_eq_getElem h2]
    simp

theorem fedAirspy_queue : fedAirspy.queue = [(1, 0), (2, 0), (3, 0)] := by
  have h : occupancy fedAirspy.n_ fedAirspy.wi_ fedAirspy.ri_ = 3 := by decide
  simp only [AirspySoundIn.queue, contents, h]
  simp [List.range_succ, fedAirspy]
  norm_num

/-- C2: in latest mode `get(n, t0, 1)` terminates (fuel `n_` suffices) and
returns at most `n` samples, built from exactly the `min(n, occupancy)` newest
buffered samples in push order, whatever the backlog, leaving the buffer
empty.  The card source returns those samples normalised.  The SDR source
returns that window demodulated: never more than `min(n, occupancy)` values,
exactly that many when `iq2usb` keeps the length; a window of fewer than two
samples comes back as its real parts, a longer one as `iq2usb` of the
zero-padded window cut back to the window's length. -/
theorem get_latest_newest {Dev F : Type} (analytic : List ℚ → List Cplx) (fuel : Nat)
    (c : CardSoundIn) (a : AirspySoundIn Dev F) (n : Nat) (hc : c.WF) (ha : a.WF)
    (hfc : c.n_ ≤ fuel) (hfa : a.n_ ≤ fuel) :
    (∃ c' t0, c.get fuel n 1 =
        .ok (c', (c.queue.drop (c.queue.length - min n c.queue.length)).map
          (fun x : Int => (x : ℚ) / 32767), t0) ∧
      (c.queue.drop (c.queue.length - min n c.queue.length)).length =
        min n (occupancy c.n_ c.wi_ c.ri_) ∧
      c'.ri_ = c.wi_) ∧
    (∃ a' v t0, a.get analytic fuel n 1 = .ok (a', v, t0) ∧
      v = AirspySoundIn.demod analytic a.rate_
          (a.queue.drop (a.queue.length - min n a.queue.length)) ∧
      (a.queue.drop (a.queue.length - min n a.queue.length)).length =
        min n (occupancy a.n_ a.wi_ a.ri_) ∧
      a'.ri_ = a.wi_ ∧
      v.length ≤ n ∧
      v.length ≤ min n (occupancy a.n_ a.wi_ a.ri_) ∧
      ((∀ w, (iq2usb analytic w).length = w.length) →
        v.length = min n (occupancy a.n_ a.wi_ a.ri_)) ∧
      ((a.queue.drop (a.queue.length - min n a.queue.length)).length < 2 →
        v = vreal (a.queue.drop (a.queue.length - min n a.queue.length))) ∧
      (2 ≤ (a.queue.drop (a.queue.length - min n a.queue.length)).length →
        ∃ pad, v = (iq2usb analytic
          (a.queue.drop (a.queue.length - min n a.queue.length) ++
            List.replicate pad ((0, 0) : Cplx))).take
          (a.queue.drop (a.queue.length - min n a.queue.length)).length)) := by
  constructor
  · have hlt := CardSoundIn.occ_lt c hc
    have ho : c.occ = occupancy c.n_ c.wi_ c.ri_ := rfl
    have hd : c.discarded n 1 = c.occ - n := by simp [CardSoundIn.discarded]
    rw [CardSoundIn.card_get_eq fuel c n 1 hc (fun _ => by omega), hd,
      CardSoundIn.card_queue_length, ← ho]
    have e1 : c.occ - min n c.occ = c.occ - n := by omega
    have e2 : c.ri_ + (c.occ - n) + min n (c.occ - (c.occ - n)) = c.ri_ + c.occ := by omega
    have e3 : (c.queue.drop (c.occ - n)).length ≤ n := by
      rw [List.length_drop, CardSoundIn.card_queue_length]; omega
    rw [e1, List.take_of_length_le e3]
    refine ⟨_, _, rfl, ?_, ?_⟩
    · rw [List.length_drop, CardSoundIn.card_queue_length]; omega
    · simp only [e2]
      exact add_occupancy_mod hc.2.1 hc.2.2
  · have hlt : a.occ < a.n_ := occupancy_lt ha.1 _ _
    have ho : a.occ = occupancy a.n_ a.wi_ a.ri_ := rfl
    have hd : a.discarded n 1 = a.occ - n := by simp [AirspySoundIn.discarded]
    rw [AirspySoundIn.airspy_get_eq analytic fuel a n 1 ha (fun _ => by omega), hd,
      AirspySoundIn.airspy_queue_length, ← ho]
    have e1 : a.occ - min n a.occ = a.occ - n := by omega
    have e2 : a.ri_ + (a.occ - n) + min n (a.occ - (a.occ - n)) = a.ri_ + a.occ := by omega
    have e3 : (a.queue.drop (a.occ - n)).length ≤ n := by
      rw [List.length_drop, AirspySoundIn.airspy_queue_length]; omega
    have e4 : (a.queue.drop (a.occ - n)).length = min n a.occ := by
      rw [List.length_drop, AirspySoundIn.airspy_queue_length]; omega
    have e5 := AirspySoundIn.demod_length_le analytic a.rate_ (a.queue.drop (a.occ - n))
    rw [e1, List.take_of_length_le e3]
    refine ⟨_, _, _, rfl, rfl, e4, ?_, by omega, by omega, ?_, ?_, ?_⟩
    · simp only [e2]
      exact add_occupancy_mod ha.2.1 ha.2.2.1
    · intro hlen
      rw [AirspySoundIn.demod_length analytic hlen, e4]
    · intro hshort
      exact AirspySoundIn.demod_short analytic a.rate_ _ hshort
    · intro hlong
      exact AirspySoundIn.demod_long analytic a.rate_ _ hlong

/-- Witness for C2: after the values 1..100 were pushed into an empty card
buffer, `get(5, t0, 1)` returns 96, 97, 98, 99, 100 (normalised); on the SDR
source holding `(1,0), (2,0), (3,0)`, `get(2, t0, 1)` returns 2, 3 and leaves
the buffer empty. -/
theorem get_latest_newest_witness :
    (CardSoundIn.cbs (emptyCard 1000) [countingBlock 100 0]).WF ∧ fedAirspy.WF ∧
    (∃ c' t0, (CardSoundIn.cbs (emptyCard 1000) [countingBlock 100 0]).get 1000 5 1 =
      .ok (c', ([96, 97, 98, 99, 100] : List Int).map (fun x : Int => (x : ℚ) / 32767), t0)) ∧
    (∃ a' t0, fedAirspy.get analyticId 1000 2 1 = .ok (a', [2, 3], t0) ∧ a'.ri_ = 3) := by
  refine ⟨by decide, by decide, ?_, ?_⟩
  · obtain ⟨c', t0, h1, _, _⟩ :=
      (get_latest_newest analyticId 1000 (CardSoundIn.cbs (emptyCard 1000) [countingBlock 100 0])
        fedAirspy 5 (by decide) (by decide) (by decide) (by decide)).1
    refine ⟨c', t0, ?_⟩
    rw [h1]
    have : (CardSoundIn.cbs (emptyCard 1000) [countingBlock 100 0]).queue.drop
        ((CardSoundIn.cbs (emptyCard 1000) [countingBlock 100 0]).queue.length -
          min 5 (CardSoundIn.cbs (emptyCard 1000) [countingBlock 100 0]).queue.length) =
        [96, 97, 98, 99, 100] := by
      decide
    rw [this]
  · obtain ⟨a', v, t0, h1, _, _, h4, _, _, _, _, h9⟩ :=
      (get_latest_newest analyticId 1000 (CardSoundIn.cbs (emptyCard 1000) [countingBlock 100 0])
        fedAirspy 2 (by decide) (by decide) (by decide) (by decide)).2
    have hw : fedAirspy.queue.drop (fedAirspy.queue.length - min 2 fedAirspy.queue.length) =
        [(2, 0), (3, 0)] := by
      rw [fedAirspy_queue]; rfl
    rw [hw] at h9
    obtain ⟨pad, hv⟩ := h9 (by simp)
    refine ⟨a', t0, ?_, by rw [h4]; rfl⟩
    rw [h1, hv, iq2usb_analyticId]
    simp

/-- C3: in normal mode `get(n, t0, 0)` returns exactly
`min(n, occupancy)` samples, `occupancy = (wi_ + n_ - ri_) mod n_`, and
advances `ri_` by that many cells, for the card source and, when `iq2usb`
keeps the length, for the SDR source with its padding and truncation. -/
theorem get_normal_length {Dev F : Type} (analytic : List ℚ → List Cplx) (fuel : Nat)
    (c : CardSoundIn) (a : AirspySoundIn Dev F) (n : Nat)
    (hc : c.WF) (ha : a.WF) (hlen : ∀ v, (iq2usb analytic v).length = v.length) :
    (∃ c' v t0, c.get fuel n 0 = .ok (c', v, t0) ∧
      v.length = min n (occupancy c.n_ c.wi_ c.ri_) ∧ c'.ri_ = (c.ri_ + v.length) % c.n_) ∧
    (∃ a' v t0, a.get analytic fuel n 0 = .ok (a', v, t0) ∧
      v.length = min n (occupancy a.n_ a.wi_ a.ri_) ∧ a'.ri_ = (a.ri_ + v.length) % a.n_) := by
  constructor
  · rw [CardSoundIn.card_get_eq fuel c n 0 hc (by simp)]
    have hd : c.discarded n 0 = 0 := by simp [CardSoundIn.discarded]
    have hl : (List.map (fun x : Int => (x : ℚ) / 32767)
        (List.take n (List.drop (c.discarded n 0) c.queue))).length =
        min n (occupancy c.n_ c.wi_ c.ri_) := by
      rw [hd, List.length_map, List.length_take, List.drop_zero, CardSoundIn.card_queue_length]; rfl
    refine ⟨_, _, _, rfl, hl, ?_⟩
    rw [hl, hd]; rfl
  · rw [AirspySoundIn.airspy_get_eq analytic fuel a n 0 ha (by simp)]
    have hd : a.discarded n 0 = 0 := by simp [AirspySoundIn.discarded]
    have hl : (AirspySoundIn.demod analytic a.rate_
        (List.take n (List.drop (a.discarded n 0) a.queue))).length =
        min n (occupancy a.n_ a.wi_ a.ri_) := by
      rw [AirspySoundIn.demod_length analytic hlen, hd, List.length_take, List.drop_zero,
        AirspySoundIn.airspy_queue_length]; rfl
    refine ⟨_, _, _, rfl, hl, ?_⟩
    rw [hl, hd]; rfl

/-- Witness for C3: four samples asked of a full card buffer and of an SDR
buffer holding three. -/
theorem get_normal_length_witness :
    (CardSoundIn.cbs (emptyCard 10) [countingBlock 15 0]).WF ∧ fedAirspy.WF ∧
    (∃ c' v t0, (CardSoundIn.cbs (emptyCard 10) [countingBlock 15 0]).get 0 4 0 = .ok (c', v, t0) ∧
      v.length = 4 ∧ c'.ri_ = 4) ∧
    (∃ a' v t0, fedAirspy.get analyticId 0 4 0 = .ok (a', v, t0) ∧
      v.length = 3 ∧ a'.ri_ = 3) := by
  have h := get_normal_length analyticId 0
    (CardSoundIn.cbs (emptyCard 10) [countingBlock 15 0]) fedAirspy 4 (by decide) (by decide)
    (iq2usb_length analyticId (by intro x; simp [analyticId]))
  refine ⟨by decide, by decide, ?_, ?_⟩
  · obtain ⟨c', v, t0, h1, h2, h3⟩ := h.1
    exact ⟨c', v, t0, h1, h2, by rw [h3, h2]; decide⟩
  · obtain ⟨a', v, t0, h1, h2, h3⟩ := h.2
    exact ⟨a', v, t0, h1, h2, by rw [h3, h2]; decide⟩

namespace CardSoundIn

/-- C4 (counterexample): after 15 values are pushed into the empty buffer of
capacity 10, `get` returns the first nine values pushed, 1..9, not the last
nine, 7..15. -/
theorem overflow_keeps_oldest :
    (∃ s' t0, get 0 (cbs (emptyCard 10) [countingBlock 15 0]) 15 0 =
      .ok (s', ([1, 2, 3, 4, 5, 6, 7, 8, 9] : List Int).map (fun x : Int => (x : ℚ) / 32767), t0)) ∧
    ∀ s' t0, get 0 (cbs (emptyCard 10) [countingBlock 15 0]) 15 0 ≠
      .ok (s', ((pushed (emptyCard 10) [countingBlock 15 0]).drop 6).map
        (fun x : Int => (x : ℚ) / 32767), t0) := by
  have hq : (cbs (emptyCard 10) [countingBlock 15 0]).queue = [1, 2, 3, 4, 5, 6, 7, 8, 9] := by
    decide
  have hg := card_get_eq 0 (cbs (emptyCard 10) [countingBlock 15 0]) 15 0 (by decide) (by simp)
  have hd : discarded (cbs (emptyCard 10) [countingBlock 15 0]) 15 0 = 0 := by simp [discarded]
  rw [hd, hq] at hg
  constructor
  · exact ⟨_, _, hg⟩
  · intro s' t0 h
    rw [hg] at h
    have h1 := congrArg (fun r => match r with
      | Except.ok x => x.2.1.head?
      | Except.error _ => none) h
    have hp : (pushed (emptyCard 10) [countingBlock 15 0]).drop 6 = [7, 8, 9, 10, 11, 12, 13, 14, 15] := by
      decide
    rw [hp] at h1
    simp at h1
    norm_num at h1

theorem cbLoop_log (input : Nat → Int) (k : Nat) : ∀ i s, WF s →
    (cbLoop input k i s).2 = if s.n_ - 1 - s.occ < k then [Stderr.cardOverflow] else [] := by
  induction k with
  | zero => intro i s _; simp [cbLoop]
  | succ k ih =>
    intro i s h
    obtain ⟨hn, hw, hr⟩ := h
    have hlt := occ_lt s ⟨hn, hw, hr⟩
    rw [cbLoop]
    by_cases hfull : (s.wi_ + 1) % s.n_ = s.ri_
    · have := (full_iff hw hr).1 hfull
      rw [if_neg (by simpa using hfull), if_pos (by simp only [occ]; omega)]
    · have hocc := occupancy_push hw hr hfull
      have hnf : occupancy s.n_ s.wi_ s.ri_ ≠ s.n_ - 1 := fun e => hfull ((full_iff hw hr).2 e)
      have hwf : WF { s with
          buf_ := Function.update s.buf_ s.wi_ (input (i * s.channels_ + s.chan_))
          wi_ := (s.wi_ + 1) % s.n_ } := ⟨hn, Nat.mod_lt _ hn, hr⟩
      rw [if_pos hfull, ih _ _ hwf]
      simp only [occ, hocc] at hlt ⊢
      by_cases hk : s.n_ - 1 - (occupancy s.n_ s.wi_ s.ri_ + 1) < k
      · rw [if_pos hk, if_pos (by omega)]
      · rw [if_neg hk, if_neg (by omega)]

theorem cbLoop_full (input : Nat → Int) (k i : Nat) (s : CardSoundIn)
    (hfull : (s.wi_ + 1) % s.n_ = s.ri_) : (cbLoop input k i s).1 = s := by
  cases k with
  | zero => rfl
  | succ k => rw [cbLoop, if_neg (by simpa using hfull)]

theorem get_samples_time (fuel : Nat) (s : CardSoundIn) (t : ℚ) (n : Nat) (latest : Int)
    (h : WF s) :
    (get fuel { s with time_ := t } n latest).map (fun r => r.2.1) =
      (get fuel s n latest).map (fun r => r.2.1) := by
  obtain ⟨hn, hw, hr⟩ := h
  have key : ∀ u : ℚ, s.wi_ = s.ri_ →
      (get fuel { s with time_ := u } n latest).map (fun r => r.2.1) = .ok [] := by
    intro u he
    unfold get
    split
    · rfl
    · have h0 : ¬ (s.wi_ + s.n_ - s.ri_) % s.n_ > n := by
        have := (occupancy_eq_zero_iff hw hr).2 he
        unfold occupancy at this; omega
      have hd : (if latest ≠ 0 then discardLoop s.n_ s.wi_ n fuel s.ri_ else .ok s.ri_) =
          .ok s.ri_ := by
        split
        · cases fuel <;> simp [discardLoop, h0]
        · rfl
      simp only [hd]
      cases n <;> simp [popLoop, Except.map, he]
  by_cases he : s.wi_ = s.ri_
  · rw [key t he]
    have := key s.time_ he
    exact this.symm
  · unfold get
    have g1 : ¬ (t < 0 ∧ s.wi_ = s.ri_) := fun c => he c.2
    have g2 : ¬ (s.time_ < 0 ∧ s.wi_ = s.ri_) := fun c => he c.2
    simp only [if_neg g1, if_neg g2]
    split <;> rfl

/-- C5: on a full buffer, `(wi_ + 1) mod n_ = ri_`, `CardSoundIn::cb` returns
0 and leaves `wi_`, `ri_`, `n_` and every cell of `buf_` as they were, so any
later `get` returns the same samples as before the call, and the occupancy
stays at most `n_ - 1`. -/
theorem cb_full_drops (s : CardSoundIn) (input : Nat → Int) (frameCount : Nat) (adc : ℚ)
    (statusFlags : Nat) (h : WF s) (hfull : (s.wi_ + 1) % s.n_ = s.ri_) :
    (cb s input frameCount adc statusFlags).2.2 = 0 ∧
    (cb s input frameCount adc statusFlags).1.wi_ = s.wi_ ∧
    (cb s input frameCount adc statusFlags).1.ri_ = s.ri_ ∧
    (cb s input frameCount adc statusFlags).1.buf_ = s.buf_ ∧
    (cb s input frameCount adc statusFlags).1.n_ = s.n_ ∧
    (∀ fuel n latest,
      (get fuel (cb s input frameCount adc statusFlags).1 n latest).map (fun r => r.2.1) =
        (get fuel s n latest).map (fun r => r.2.1)) ∧
    occupancy s.n_ (cb s input frameCount adc statusFlags).1.wi_
      (cb s input frameCount adc statusFlags).1.ri_ ≤ s.n_ - 1 := by
  have hs : (cb s input frameCount adc statusFlags).1 =
      { s with time_ := adc + (frameCount : ℚ) * (1 / (s.rate_ : ℚ)) } := by
    simp only [cb, cbLoop_full input frameCount 0 s hfull]
  rw [hs]
  refine ⟨rfl, rfl, rfl, rfl, rfl, ?_, ?_⟩
  · intro fuel n latest
    exact get_samples_time fuel s _ n latest h
  · have := occupancy_lt h.1 s.wi_ s.ri_
    simp only []; omega

/-- Witness for C5: four more frames offered to the full buffer of capacity 10. -/
theorem cb_full_drops_witness :
    WF (cbs (emptyCard 10) [countingBlock 15 0]) ∧
    ((cbs (emptyCard 10) [countingBlock 15 0]).wi_ + 1) %
      (cbs (emptyCard 10) [countingBlock 15 0]).n_ = (cbs (emptyCard 10) [countingBlock 15 0]).ri_ ∧
    (cb (cbs (emptyCard 10) [countingBlock 15 0]) (fun _ => 77) 4 1 0).1.wi_ = 9 ∧
    (cb (cbs (emptyCard 10) [countingBlock 15 0]) (fun _ => 77) 4 1 0).1.ri_ = 0 := by
  have h := cb_full_drops (cbs (emptyCard 10) [countingBlock 15 0]) (fun _ => 77) 4 1 0
    (by decide) (by decide)
  refine ⟨by decide, by decide, ?_, ?_⟩
  · rw [h.2.1]; decide
  · rw [h.2.2.1]; decide

theorem fedCard_time : fedCard.time_ = 100 := by
  simp [fedCard, cbs, cb, countingBlock, emptyCard, cbLoop]
  norm_num

theorem fedCard_dt : fedCard.dt_ = 0 := by
  simp [fedCard, cbs, cb, countingBlock, emptyCard, cbLoop]

end CardSoundIn

theorem drainedCard_get : CardSoundIn.get 0 drainedCard 3 0 = .ok (drainedCard, [], 70) := by
  have ht : drainedCard.time_ = 100 := CardSoundIn.fedCard_time
  have hdt : drainedCard.dt_ = 0 := CardSoundIn.fedCard_dt
  have ho : drainedCard.occ = 0 := by decide
  have hrate : drainedCard.rate_ = 1 := by decide
  have hn : drainedCard.n_ = 30 := by decide
  have hd : drainedCard.discarded 3 0 = 0 := by simp [CardSoundIn.discarded]
  have hq : drainedCard.queue = [] := by decide
  rw [CardSoundIn.card_get_eq 0 drainedCard 3 0 (by decide) (by simp)]
  refine congrArg Except.ok (Prod.ext ?_ (Prod.ext ?_ ?_))
  · rfl
  · simp only [hd, hq]; rfl
  · simp only [hd, ho, ht, hdt, hrate, hn]; norm_num

theorem fedCard_get : CardSoundIn.get 0 fedCard 3 0 =
    .ok (drainedCard, (fedCard.queue.take 3).map (fun x : Int => (x : ℚ) / 32767), 97) := by
  have ht : fedCard.time_ = 100 := CardSoundIn.fedCard_time
  have hdt : fedCard.dt_ = 0 := CardSoundIn.fedCard_dt
  have hrate : fedCard.rate_ = 1 := by decide
  have hn : fedCard.n_ = 30 := by decide
  have ho : fedCard.occ = 3 := by decide
  have hd : fedCard.discarded 3 0 = 0 := by simp [CardSoundIn.discarded]
  rw [CardSoundIn.card_get_eq 0 fedCard 3 0 (by decide) (by simp)]
  refine congrArg Except.ok (Prod.ext ?_ (Prod.ext ?_ ?_))
  · rfl
  · simp only [hd]; rfl
  · simp only [hd, ho, ht, hdt, hrate, hn]; norm_num

/-- C6 (code evaluated at the failing input): the card source `drainedCard`
has seen input (`time_ = 100`), its buffer is empty, and the claimed timestamp
`time_ + dt_ - occupancy / rate_` is 100; `CardSoundIn::get` sets `t0` to 70,
which is `time_ + dt_ - n_ / rate_`. -/
theorem card_get_empty_t0 :
    ¬ (drainedCard.time_ < 0 ∧ drainedCard.wi_ = drainedCard.ri_) ∧
    drainedCard.wi_ = drainedCard.ri_ ∧
    drainedCard.time_ + drainedCard.dt_ -
      (occupancy drainedCard.n_ drainedCard.wi_ drainedCard.ri_ : ℚ) / (drainedCard.rate_ : ℚ) = 100 ∧
    CardSoundIn.get 0 drainedCard 3 0 = .ok (drainedCard, [], 70) ∧
    drainedCard.time_ + drainedCard.dt_ - (drainedCard.n_ : ℚ) / (drainedCard.rate_ : ℚ) = 70 := by
  have ht : drainedCard.time_ = 100 := CardSoundIn.fedCard_time
  have hdt : drainedCard.dt_ = 0 := CardSoundIn.fedCard_dt
  have hocc : occupancy drainedCard.n_ drainedCard.wi_ drainedCard.ri_ = 0 := by decide
  have hrate : drainedCard.rate_ = 1 := by decide
  have hn : drainedCard.n_ = 30 := by decide
  refine ⟨?_, by decide, ?_, drainedCard_get, ?_⟩
  · rw [ht]; norm_num
  · rw [ht, hdt, hocc, hrate]; norm_num
  · rw [ht, hdt, hn, hrate]; norm_num

/-- C7 (code evaluated at the failing input): on the card source `fedCard`
(three samples buffered, newest at time 100, rate 1) a first `get(3, t0, 0)`
drains the buffer and sets `t0 = 97`; a second `get`, with no callback in
between, finds the buffer empty and sets `t0 = 70`, earlier than the first. -/
theorem card_t0_goes_back :
    ∃ v1 t1 s2 t2, CardSoundIn.get 0 fedCard 3 0 = .ok (drainedCard, v1, t1) ∧
      CardSoundIn.get 0 drainedCard 3 0 = .ok (s2, [], t2) ∧ v1.length = 3 ∧
      t1 = 97 ∧ t2 = 70 ∧ t2 < t1 := by
  refine ⟨_, _, _, _, fedCard_get, drainedCard_get, ?_, rfl, rfl, ?_⟩
  · have ho : fedCard.occ = 3 := by decide
    rw [List.length_map, List.length_take, CardSoundIn.card_queue_length, ho]; rfl
  · norm_num

namespace AirspySoundIn

variable {Dev F : Type}

/-- C10 (counterexample): `set_freq(50000000)`, inside the unsupported gap
31..60 MHz, on a receiver that accepts the request: the warning is printed,
and the receiver is retuned and `hz_` overwritten all the same. -/
theorem set_freq_gap_retunes :
    (31000000 : Int) < 50000000 ∧ (50000000 : Int) < 60000000 ∧
    ∃ s', ext_set_freq tuneAlways fedAirspy 50000000 =
        ([Stderr.unsupportedFrequency 50000000], some (s', 50000000)) ∧
      s'.device_ = 50000000 ∧ s'.device_ ≠ fedAirspy.device_ ∧
      s'.hz_ = 50000000 ∧ s'.hz_ ≠ fedAirspy.hz_ := by
  refine ⟨by decide, by decide, { fedAirspy with device_ := 50000000, hz_ := 50000000 }, ?_, rfl,
    by decide, rfl, ?_⟩
  · simp [ext_set_freq, set_freq, tuneAlways, AIRSPYHF_SUCCESS]
  · simp [fedAirspy]

/-- C10 (amended): `set_freq(hz)` prints the unsupported-frequency line when
`31000000 < hz < 60000000` and for no other `hz`, and in every case passes
`hz` on to the receiver:
if the receiver reports success the source holds the receiver's new state,
`hz_ = hz`, and `hz` is returned; otherwise the process exits.  Whenever a
value is returned it is `hz` and `hz_` equals it. -/
theorem set_freq_forwards {Dev F : Type} (airspyhf_set_freq : Dev → Int → Dev × Int)
    (s : AirspySoundIn Dev F) (hz : Int) :
    ((31000000 < hz ∧ hz < 60000000) →
      ∃ rest, (ext_set_freq airspyhf_set_freq s hz).1 = Stderr.unsupportedFrequency hz :: rest) ∧
    (¬ (31000000 < hz ∧ hz < 60000000) →
      Stderr.unsupportedFrequency hz ∉ (ext_set_freq airspyhf_set_freq s hz).1) ∧
    ((airspyhf_set_freq s.device_ hz).2 = AIRSPYHF_SUCCESS →
      (ext_set_freq airspyhf_set_freq s hz).2 =
        some ({ s with device_ := (airspyhf_set_freq s.device_ hz).1, hz_ := (hz : ℚ) }, hz)) ∧
    ((airspyhf_set_freq s.device_ hz).2 ≠ AIRSPYHF_SUCCESS →
      (ext_set_freq airspyhf_set_freq s hz).2 = none) ∧
    (∀ s' ret, (ext_set_freq airspyhf_set_freq s hz).2 = some (s', ret) →
      ret = hz ∧ s'.hz_ = (hz : ℚ) ∧ s'.device_ = (airspyhf_set_freq s.device_ hz).1) := by
  unfold ext_set_freq set_freq
  refine ⟨?_, ?_, ?_, ?_, ?_⟩
  · intro h
    simp only [if_pos h]
    split
    · exact ⟨_, rfl⟩
    · exact ⟨_, rfl⟩
  · intro h
    simp only [if_neg h]
    split <;> simp
  · intro h
    simp [h]
  · intro h
    simp [h]
  · intro s' ret h
    simp only [] at h
    split at h
    · cases h
    · simp only [Option.some.injEq, Prod.mk.injEq] at h
      obtain ⟨h1, h2⟩ := h
      subst h1 h2
      exact ⟨rfl, rfl, rfl⟩

/-- Witness for C10 (amended): 50 MHz on a receiver that accepts it. -/
theorem set_freq_forwards_witness :
    (31000000 : Int) < 50000000 ∧ (50000000 : Int) < 60000000 ∧
    (tuneAlways fedAirspy.device_ 50000000).2 = AIRSPYHF_SUCCESS ∧
    (∃ rest, (ext_set_freq tuneAlways fedAirspy 50000000).1 =
      Stderr.unsupportedFrequency 50000000 :: rest) ∧
    (ext_set_freq tuneAlways fedAirspy 50000000).2 =
      some ({ fedAirspy with device_ := 50000000, hz_ := ((50000000 : Int) : ℚ) }, 50000000) :=
  ⟨by decide, by decide, rfl,
    (set_freq_forwards tuneAlways fedAirspy 50000000).1 ⟨by decide, by decide⟩,
    (set_freq_forwards tuneAlways fedAirspy 50000000).2.2.1 rfl⟩

end AirspySoundIn

theorem map_range_succ_shift {α : Type} (g : Nat → α) (i k : Nat) :
    (List.range (k + 1)).map (fun j => g (i + j)) =
      g i :: (List.range k).map (fun j => g (i + 1 + j)) := by
  rw [List.range_succ_eq_map, List.map_cons, List.map_map]
  simp only [Nat.add_zero]
  congr 1
  apply List.map_congr_left
  intro j _
  have e : i + 1 + j = i + (j + 1) := by omega
  simp only [Function.comp, Nat.succ_eq_add_one, e]

theorem filterOut_length {F : Type} (fl : Firfilt F) (xs : List Cplx) :
    ∀ f, (filterOut fl f xs).length = xs.length := by
  induction xs with
  | nil => intro f; rfl
  | cons x xs ih => intro f; simp [filterOut, ih]

theorem filterOut_append {F : Type} (fl : Firfilt F) (xs ys : List Cplx) :
    ∀ f, filterOut fl f (xs ++ ys) = filterOut fl f xs ++ filterOut fl (xs.foldl fl.push f) ys := by
  induction xs with
  | nil => intro f; rfl
  | cons x xs ih => intro f; simp [filterOut, ih]

theorem retained_append {α : Type} (R : Nat) (xs ys : List α) :
    ∀ c, retained R c (xs ++ ys) = retained R c xs ++ retained R (c + xs.length) ys := by
  induction xs with
  | nil => intro c; rfl
  | cons x xs ih =>
    intro c
    have e : c + 1 + xs.length = c + (xs.length + 1) := by omega
    rw [List.cons_append, retained, retained, ih (c + 1), List.length_cons, e]
    split <;> rfl

namespace AirspySoundIn

variable {Dev F : Type}

theorem cb2Loop_spec (fl : Firfilt F) (t : airspyhf_transfer_t) (g : Nat → Cplx)
    (hg : ∀ i, g i = if i < t.sample_count then t.samples i else ((0, 0) : Cplx)) (k : Nat) :
    ∀ i (s : AirspySoundIn Dev F), WF s →
    (retained (s.air_rate_ / s.rate_) s.count_
      ((List.range k).map (fun j => g (i + j)))).length ≤ s.n_ - 1 - s.occ →
    (cb2Loop fl t k i s) =
      { s with
        buf_ := (cb2Loop fl t k i s).buf_
        wi_ := (cb2Loop fl t k i s).wi_
        count_ := s.count_ + k
        filter_ := ((List.range k).map (fun j => g (i + j))).foldl fl.push s.filter_ } ∧
    WF (cb2Loop fl t k i s) ∧
    (cb2Loop fl t k i s).queue = s.queue ++
      retained (s.air_rate_ / s.rate_) s.count_
        (filterOut fl s.filter_ ((List.range k).map (fun j => g (i + j)))) := by
  induction k with
  | zero => intro i s h _; simp [cb2Loop, h, retained, filterOut]
  | succ k ih =>
    intro i s h hroom
    obtain ⟨hn, hw, hr, hrate, hR⟩ := h
    rw [map_range_succ_shift] at hroom ⊢
    rw [cb2Loop]
    simp only [← hg i]
    simp only [retained, filterOut, List.foldl_cons] at hroom ⊢
    by_cases hc : s.count_ % (s.air_rate_ / s.rate_) = 0
    · rw [if_pos hc] at hroom ⊢
      rw [if_pos hc]
      simp only [List.length_cons] at hroom
      have hnf : (s.wi_ + 1) % s.n_ ≠ s.ri_ := by
        intro e
        have := (full_iff hw hr).1 e
        simp only [occ] at hroom; omega
      rw [if_pos hnf]
      have hocc := occupancy_push hw hr hnf
      have hwf : WF ({ s with
          filter_ := fl.push s.filter_ (g i)
          buf_ := Function.update s.buf_ s.wi_ (fl.execute (fl.push s.filter_ (g i)))
          wi_ := (s.wi_ + 1) % s.n_
          count_ := s.count_ + 1 } : AirspySoundIn Dev F) :=
        ⟨hn, Nat.mod_lt _ hn, hr, hrate, hR⟩
      have hroom' : (retained (s.air_rate_ / s.rate_) (s.count_ + 1)
          ((List.range k).map (fun j => g (i + 1 + j)))).length ≤
          s.n_ - 1 - occupancy s.n_ ((s.wi_ + 1) % s.n_) s.ri_ := by
        simp only [occ] at hroom; omega
      obtain ⟨h1, h2, h3⟩ := ih (i + 1) _ hwf hroom'
      refine ⟨?_, h2, ?_⟩
      · rw [h1]
        simp only [Nat.add_assoc, Nat.add_comm 1 k]
      · rw [h3]
        have hq : queue ({ s with
            filter_ := fl.push s.filter_ (g i)
            buf_ := Function.update s.buf_ s.wi_ (fl.execute (fl.push s.filter_ (g i)))
            wi_ := (s.wi_ + 1) % s.n_
            count_ := s.count_ + 1 } : AirspySoundIn Dev F) =
            s.queue ++ [fl.execute (fl.push s.filter_ (g i))] := by
          simp only [queue]
          rw [contents_eq_window _ hr, contents_eq_window _ hr, hocc]
          exact window_update _ hw _ _ _ hr rfl
        rw [hq]
        simp
    · rw [if_neg hc] at hroom ⊢
      rw [if_neg hc]
      have hwf : WF ({ s with
          filter_ := fl.push s.filter_ (g i)
          count_ := s.count_ + 1 } : AirspySoundIn Dev F) :=
        ⟨hn, hw, hr, hrate, hR⟩
      obtain ⟨h1, h2, h3⟩ := ih (i + 1) _ hwf hroom
      refine ⟨?_, h2, ?_⟩
      · rw [h1]
        simp only [Nat.add_assoc, Nat.add_comm 1 k]
      · rw [h3]; rfl

end AirspySoundIn

theorem retained_one {α : Type} (ys : List α) : ∀ c, retained 1 c ys = ys := by
  induction ys with
  | nil => intro c; rfl
  | cons y ys ih => intro c; rw [retained, if_pos (Nat.mod_one c), ih]

theorem retained_period {α : Type} (R : Nat) (ys : List α) :
    ∀ c, retained R (c + R) ys = retained R c ys := by
  induction ys with
  | nil => intro c; rfl
  | cons y ys ih =>
    intro c
    have e : c + R + 1 = c + 1 + R := by omega
    rw [retained, retained, Nat.add_mod_right, e, ih]

theorem retained_skip {α : Type} (R : Nat) (k : Nat) :
    ∀ (ys : List α) (c : Nat), (∀ j, j < k → (c + j) % R ≠ 0) →
    retained R c ys = retained R (c + k) (ys.drop k) := by
  induction k with
  | zero => intro ys c _; rfl
  | succ k ih =>
    intro ys c h
    cases ys with
    | nil => simp [retained]
    | cons y ys =>
      have h0 : c % R ≠ 0 := by simpa using h 0 (by omega)
      rw [retained, if_neg h0, List.drop_succ_cons,
        ih ys (c + 1) (fun j hj => by
          have := h (j + 1) (by omega)
          rwa [show c + 1 + j = c + (j + 1) by omega])]
      congr 1; omega

theorem retained_cons_zero {α : Type} (R : Nat) (hR : 0 < R) (y : α) (ys : List α) :
    retained R 0 (y :: ys) = y :: retained R 0 ((y :: ys).drop R) := by
  rw [retained, if_pos (Nat.zero_mod R)]
  congr 1
  rw [retained_skip R (R - 1) ys (0 + 1) (fun j hj => by
    rw [Nat.mod_eq_of_lt (by omega)]; omega)]
  have e : 0 + 1 + (R - 1) = 0 + R := by omega
  rw [e, retained_period]
  obtain ⟨r, rfl⟩ : ∃ r, R = r + 1 := ⟨R - 1, by omega⟩
  rfl

theorem ceil_div_step (len R : Nat) (hR : 0 < R) :
    (len + 1 + R - 1) / R = (len + 1 - R + R - 1) / R + 1 := by
  have e1 : len + 1 + R - 1 = len + R := by omega
  rw [e1, Nat.add_div_right _ hR]
  congr 1
  by_cases h : R ≤ len + 1
  · congr 1; omega
  · rw [Nat.div_eq_of_lt (by omega), Nat.div_eq_of_lt (by omega)]

theorem retained_eq_range {α : Type} (R : Nat) (hR : 0 < R) (d : α) (n : Nat) :
    ∀ ys : List α, ys.length ≤ n →
    retained R 0 ys = (List.range ((ys.length + R - 1) / R)).map (fun j => ys.getD (j * R) d) := by
  induction n with
  | zero =>
    intro ys h
    have : ys = [] := List.eq_nil_of_length_eq_zero (by omega)
    subst this
    have : (R - 1) / R = 0 := Nat.div_eq_of_lt (by omega)
    simp [retained, this]
  | succ n ih =>
    intro ys h
    cases ys with
    | nil =>
      have : (R - 1) / R = 0 := Nat.div_eq_of_lt (by omega)
      simp [retained, this]
    | cons y ys =>
      have hl : ((y :: ys).drop R).length ≤ n := by
        simp only [List.length_drop, List.length_cons] at h ⊢; omega
      rw [retained_cons_zero R hR, ih _ hl, List.length_cons, ceil_div_step _ R hR,
        List.range_succ_eq_map, List.map_cons, List.map_map]
      have hlen : ((y :: ys).drop R).length = ys.length + 1 - R := by
        simp [List.length_drop]
      rw [hlen]
      congr 1
      · simp
      · apply List.map_congr_left
        intro j _
        simp only [Function.comp, List.getD_eq_getElem?_getD, List.getElem?_drop,
          Nat.succ_eq_add_one]
        congr 2
        rw [Nat.add_mul]; omega

namespace AirspySoundIn

variable {Dev F : Type}

theorem cb2_spec (fl : Firfilt F) (now : ℚ) (s : AirspySoundIn Dev F) (t : airspyhf_transfer_t)
    (h : WF s)
    (hroom : (retained (s.air_rate_ / s.rate_) s.count_ (inputs t)).length ≤ s.n_ - 1 - s.occ) :
    (cb2 fl now s t).1 =
      { s with
        time_ := now
        buf_ := (cb2 fl now s t).1.buf_
        wi_ := (cb2 fl now s t).1.wi_
        count_ := s.count_ + (inputs t).length
        filter_ := (inputs t).foldl fl.push s.filter_ } ∧
    WF (cb2 fl now s t).1 ∧
    (cb2 fl now s t).1.queue = s.queue ++
      retained (s.air_rate_ / s.rate_) s.count_ (filterOut fl s.filter_ (inputs t)) := by
  have e : (List.range (t.sample_count + t.dropped_samples)).map
      (fun j => (fun i => if i < t.sample_count then t.samples i else ((0, 0) : Cplx)) (0 + j)) =
      inputs t := by
    simp only [inputs, Nat.zero_add]
  have hl : (inputs t).length = t.sample_count + t.dropped_samples := by simp [inputs]
  have := cb2Loop_spec fl t (fun i => if i < t.sample_count then t.samples i else ((0, 0) : Cplx))
    (fun _ => rfl) (t.sample_count + t.dropped_samples) 0 ({ s with time_ := now })
    h (by rw [e]; exact hroom)
  rw [e] at this
  obtain ⟨h1, h2, h3⟩ := this
  refine ⟨?_, h2, h3⟩
  simp only [cb2]
  rw [h1, hl]

theorem step_spec (fl : Firfilt F) (analytic : List ℚ → List Cplx) (s : AirspySoundIn Dev F)
    (e : Event) (h : WF s) (hroom : neverFull fl analytic s [e]) :
    WF (step fl analytic s e) ∧
    (step fl analytic s e).air_rate_ = s.air_rate_ ∧ (step fl analytic s e).rate_ = s.rate_ ∧
    (step fl analytic s e).count_ = s.count_ + (rawInputs [e]).length ∧
    (step fl analytic s e).filter_ = (rawInputs [e]).foldl fl.push s.filter_ ∧
    written fl analytic s e = retained (s.air_rate_ / s.rate_) s.count_
      (filterOut fl s.filter_ (rawInputs [e])) := by
  cases e with
  | transfer now t =>
    obtain ⟨h1, h2, h3⟩ := cb2_spec fl now s t h hroom.1
    simp only [step, written, rawInputs, List.append_nil]
    refine ⟨h2, by rw [h1], by rw [h1], by rw [h1], by rw [h1], ?_⟩
    rw [h3, ← airspy_queue_length, List.drop_left]
  | read n latest =>
    have hlt : s.occ < s.n_ := occupancy_lt h.1 _ _
    have hg := airspy_get_eq analytic s.n_ s n latest h (fun _ => by omega)
    have hs : step fl analytic s (Event.read n latest) =
        { s with ri_ := (s.ri_ + discarded s n latest +
          min n (s.occ - discarded s n latest)) % s.n_ } := by
      simp only [step, hg]
    rw [hs]
    exact ⟨⟨h.1, h.2.1, Nat.mod_lt _ h.1, h.2.2.2⟩, rfl, rfl, rfl, rfl, rfl⟩

theorem run_spec (fl : Firfilt F) (analytic : List ℚ → List Cplx) (es : List Event) :
    ∀ s : AirspySoundIn Dev F, WF s → neverFull fl analytic s es →
    (run fl analytic s es).2 = retained (s.air_rate_ / s.rate_) s.count_
      (filterOut fl s.filter_ (rawInputs es)) ∧
    (run fl analytic s es).1.filter_ = (rawInputs es).foldl fl.push s.filter_ ∧
    (run fl analytic s es).1.count_ = s.count_ + (rawInputs es).length := by
  induction es with
  | nil => intro s _ _; simp [run, rawInputs, filterOut, retained]
  | cons e es ih =>
    intro s h hroom
    have hroom1 : neverFull fl analytic s [e] ∧
        neverFull fl analytic (step fl analytic s e) es := by
      cases e with
      | transfer now t => exact ⟨⟨hroom.1, trivial⟩, hroom.2⟩
      | read n latest => exact ⟨trivial, hroom⟩
    obtain ⟨g1, g2, g3, g4, g5, g6⟩ := step_spec fl analytic s e h hroom1.1
    obtain ⟨i1, i2, i3⟩ := ih _ g1 hroom1.2
    have hsplit : rawInputs (e :: es) = rawInputs [e] ++ rawInputs es := by
      cases e <;> simp [rawInputs]
    rw [run, hsplit, filterOut_append, retained_append, filterOut_length, List.foldl_append,
      List.length_append]
    refine ⟨?_, ?_, ?_⟩
    · simp only [i1, g2, g3, g4, g5, g6]
    · simp only [i2, g5]
    · simp only [i3, g4]; omega

/-- C9: with `R = air_rate_ / rate_`, `air_rate_` divisible by `rate_` and
`count_` starting at 0, over any run of transfers and consumer reads in which
no transfer meets a full ring buffer, the samples written to the ring buffer
are the filter outputs at input positions `0, R, 2R, ...`, in order,
`ceil(m / R)` of them for `m` raw inputs (received and zero-substituted);
every input went through the filter; and `air_rate_ / R = rate_`. -/
theorem decimation_every_Rth (fl : Firfilt F) (analytic : List ℚ → List Cplx)
    (s : AirspySoundIn Dev F) (es : List Event) (h : WF s)
    (hdiv : s.air_rate_ % s.rate_ = 0) (hcount : s.count_ = 0)
    (hroom : neverFull fl analytic s es) :
    (run fl analytic s es).2 =
      (List.range (((rawInputs es).length + s.air_rate_ / s.rate_ - 1) / (s.air_rate_ / s.rate_))).map
        (fun j => (filterOut fl s.filter_ (rawInputs es)).getD (j * (s.air_rate_ / s.rate_)) (0, 0)) ∧
    (run fl analytic s es).2.length =
      ((rawInputs es).length + s.air_rate_ / s.rate_ - 1) / (s.air_rate_ / s.rate_) ∧
    (run fl analytic s es).1.filter_ = (rawInputs es).foldl fl.push s.filter_ ∧
    (run fl analytic s es).1.count_ = (rawInputs es).length ∧
    s.air_rate_ / (s.air_rate_ / s.rate_) = s.rate_ := by
  obtain ⟨h1, h2, h3⟩ := run_spec fl analytic es s h hroom
  have hR : 0 < s.air_rate_ / s.rate_ := h.2.2.2.2
  rw [hcount] at h1
  have h4 := retained_eq_range (s.air_rate_ / s.rate_) hR ((0, 0) : Cplx) _
    (filterOut fl s.filter_ (rawInputs es)) (Nat.le_refl _)
  rw [filterOut_length] at h4
  have h5 : (run fl analytic s es).2 = _ := h1.trans h4
  refine ⟨h5, ?_, h2, by rw [h3, hcount, Nat.zero_add], ?_⟩
  · rw [h5, List.length_map, List.length_range]
  · have hd : s.rate_ ∣ s.air_rate_ := Nat.dvd_of_mod_eq_zero hdiv
    exact Nat.div_div_self hd (by
      intro e; rw [e] at hR; simp at hR)

/-- Witness for C9: 33 + 7 raw inputs with a read in between, `R = 16`. -/
theorem decimation_every_Rth_witness :
    WF idleAirspy ∧
    neverFull passThrough analyticId idleAirspy
      [Event.transfer 0 (countingTransfer 30 3), Event.read 1 0,
        Event.transfer 1 (countingTransfer 7 0)] ∧
    (run passThrough analyticId idleAirspy
      [Event.transfer 0 (countingTransfer 30 3), Event.read 1 0,
        Event.transfer 1 (countingTransfer 7 0)]).2.length = 3 ∧
    (run passThrough analyticId idleAirspy
      [Event.transfer 0 (countingTransfer 30 3), Event.read 1 0,
        Event.transfer 1 (countingTransfer 7 0)]).1.count_ = 40 := by
  have h := decimation_every_Rth passThrough analyticId idleAirspy
    [Event.transfer 0 (countingTransfer 30 3), Event.read 1 0,
      Event.transfer 1 (countingTransfer 7 0)] (by decide) (by decide) rfl (by decide)
  refine ⟨by decide, by decide, ?_, ?_⟩
  · rw [h.2.1]; decide
  · rw [h.2.2.2.1]; decide

theorem cb2Loop_queue (fl : Firfilt F) (t : airspyhf_transfer_t) (g : Nat → Cplx)
    (hg : ∀ i, g i = if i < t.sample_count then t.samples i else ((0, 0) : Cplx)) (k : Nat) :
    ∀ i (s : AirspySoundIn Dev F), WF s →
    WF (cb2Loop fl t k i s) ∧
    (cb2Loop fl t k i s).queue = s.queue ++
      (retained (s.air_rate_ / s.rate_) s.count_
        (filterOut fl s.filter_ ((List.range k).map (fun j => g (i + j))))).take
          (s.n_ - 1 - s.occ) := by
  induction k with
  | zero => intro i s h; simp [cb2Loop, h, retained, filterOut]
  | succ k ih =>
    intro i s h
    obtain ⟨hn, hw, hr, hrate, hR⟩ := h
    have hlt : s.occ < s.n_ := occupancy_lt hn _ _
    rw [map_range_succ_shift, cb2Loop]
    simp only [← hg i]
    simp only [retained, filterOut]
    by_cases hc : s.count_ % (s.air_rate_ / s.rate_) = 0
    · rw [if_pos hc, if_pos hc]
      by_cases hfull : (s.wi_ + 1) % s.n_ = s.ri_
      · rw [if_neg (by simpa using hfull)]
        have := (full_iff hw hr).1 hfull
        refine ⟨⟨hn, hw, hr, hrate, hR⟩, ?_⟩
        have e : s.n_ - 1 - s.occ = 0 := by simp only [occ]; omega
        rw [e, List.take_zero, List.append_nil]
        rfl
      · rw [if_pos hfull]
        have hocc := occupancy_push hw hr hfull
        have hnf : occupancy s.n_ s.wi_ s.ri_ ≠ s.n_ - 1 := fun e => hfull ((full_iff hw hr).2 e)
        have hwf : WF ({ s with
            filter_ := fl.push s.filter_ (g i)
            buf_ := Function.update s.buf_ s.wi_ (fl.execute (fl.push s.filter_ (g i)))
            wi_ := (s.wi_ + 1) % s.n_
            count_ := s.count_ + 1 } : AirspySoundIn Dev F) :=
          ⟨hn, Nat.mod_lt _ hn, hr, hrate, hR⟩
        obtain ⟨h2, h3⟩ := ih (i + 1) _ hwf
        refine ⟨h2, ?_⟩
        rw [h3]
        have hq : queue ({ s with
            filter_ := fl.push s.filter_ (g i)
            buf_ := Function.update s.buf_ s.wi_ (fl.execute (fl.push s.filter_ (g i)))
            wi_ := (s.wi_ + 1) % s.n_
            count_ := s.count_ + 1 } : AirspySoundIn Dev F) =
            s.queue ++ [fl.execute (fl.push s.filter_ (g i))] := by
          simp only [queue]
          rw [contents_eq_window _ hr, contents_eq_window _ hr, hocc]
          exact window_update _ hw _ _ _ hr rfl
        have hm : s.n_ - 1 - s.occ = (s.n_ - 1 - occupancy s.n_ ((s.wi_ + 1) % s.n_) s.ri_) + 1 := by
          simp only [occ] at hlt ⊢; omega
        rw [hq, hm, List.take_succ_cons]
        simp [occ]
    · rw [if_neg hc, if_neg hc]
      have hwf : WF ({ s with
          filter_ := fl.push s.filter_ (g i)
          count_ := s.count_ + 1 } : AirspySoundIn Dev F) :=
        ⟨hn, hw, hr, hrate, hR⟩
      obtain ⟨h2, h3⟩ := ih (i + 1) _ hwf
      refine ⟨h2, ?_⟩
      rw [h3]; rfl

theorem cb2_queue (fl : Firfilt F) (now : ℚ) (s : AirspySoundIn Dev F) (t : airspyhf_transfer_t)
    (h : WF s) :
    WF (cb2 fl now s t).1 ∧
    (cb2 fl now s t).1.queue = s.queue ++
      (retained (s.air_rate_ / s.rate_) s.count_ (filterOut fl s.filter_ (inputs t))).take
        (s.n_ - 1 - s.occ) := by
  have e : (List.range (t.sample_count + t.dropped_samples)).map
      (fun j => (fun i => if i < t.sample_count then t.samples i else ((0, 0) : Cplx)) (0 + j)) =
      inputs t := by
    simp only [inputs, Nat.zero_add]
  have := cb2Loop_queue fl t (fun i => if i < t.sample_count then t.samples i else ((0, 0) : Cplx))
    (fun _ => rfl) (t.sample_count + t.dropped_samples) 0 ({ s with time_ := now }) h
  rw [e] at this
  exact this

theorem cb2Loop_stops (fl : Firfilt F) (t : airspyhf_transfer_t) (g : Nat → Cplx)
    (hg : ∀ i, g i = if i < t.sample_count then t.samples i else ((0, 0) : Cplx)) (k : Nat) :
    ∀ i (s : AirspySoundIn Dev F), WF s →
    s.n_ - 1 - s.occ < (retained (s.air_rate_ / s.rate_) s.count_
      ((List.range k).map (fun j => g (i + j)))).length →
    (cb2Loop fl t k i s).count_ < s.count_ + k := by
  induction k with
  | zero => intro i s _ h; simp [retained] at h
  | succ k ih =>
    intro i s h hroom
    obtain ⟨hn, hw, hr, hrate, hR⟩ := h
    have hlt : s.occ < s.n_ := occupancy_lt hn _ _
    rw [map_range_succ_shift] at hroom
    rw [cb2Loop]
    simp only [← hg i]
    simp only [retained] at hroom
    by_cases hc : s.count_ % (s.air_rate_ / s.rate_) = 0
    · rw [if_pos hc] at hroom
      rw [if_pos hc]
      simp only [List.length_cons] at hroom
      by_cases hfull : (s.wi_ + 1) % s.n_ = s.ri_
      · rw [if_neg (by simpa using hfull)]
        simp only []; omega
      · rw [if_pos hfull]
        have hocc := occupancy_push hw hr hfull
        have hwf : WF ({ s with
            filter_ := fl.push s.filter_ (g i)
            buf_ := Function.update s.buf_ s.wi_ (fl.execute (fl.push s.filter_ (g i)))
            wi_ := (s.wi_ + 1) % s.n_
            count_ := s.count_ + 1 } : AirspySoundIn Dev F) :=
          ⟨hn, Nat.mod_lt _ hn, hr, hrate, hR⟩
        have hroom2 : s.n_ - 1 - occupancy s.n_ ((s.wi_ + 1) % s.n_) s.ri_ <
            (retained (s.air_rate_ / s.rate_) (s.count_ + 1)
              ((List.range k).map (fun j => g (i + 1 + j)))).length := by
          have hnf : occupancy s.n_ s.wi_ s.ri_ ≠ s.n_ - 1 :=
            fun e => hfull ((full_iff hw hr).2 e)
          simp only [occ] at hroom hlt; omega
        have := ih (i + 1) _ hwf hroom2
        simp only [] at this; omega
    · rw [if_neg hc] at hroom
      rw [if_neg hc]
      have hwf : WF ({ s with
          filter_ := fl.push s.filter_ (g i)
          count_ := s.count_ + 1 } : AirspySoundIn Dev F) :=
        ⟨hn, hw, hr, hrate, hR⟩
      have := ih (i + 1) _ hwf hroom
      simp only [] at this; omega

/-- The room condition of `neverFull` is exact: a transfer runs its loop to the
end, counting every input in `count_`, precisely when its outputs fit. -/
theorem cb2_count_iff (fl : Firfilt F) (now : ℚ) (s : AirspySoundIn Dev F)
    (t : airspyhf_transfer_t) (h : WF s) :
    (cb2 fl now s t).1.count_ = s.count_ + (inputs t).length ↔
      (retained (s.air_rate_ / s.rate_) s.count_ (inputs t)).length ≤ s.n_ - 1 - s.occ := by
  constructor
  · intro hcount
    by_contra hroom
    have e : (List.range (t.sample_count + t.dropped_samples)).map
        (fun j => (fun i => if i < t.sample_count then t.samples i else ((0, 0) : Cplx)) (0 + j)) =
        inputs t := by
      simp only [inputs, Nat.zero_add]
    have hl : (inputs t).length = t.sample_count + t.dropped_samples := by simp [inputs]
    have := cb2Loop_stops fl t
      (fun i => if i < t.sample_count then t.samples i else ((0, 0) : Cplx))
      (fun _ => rfl) (t.sample_count + t.dropped_samples) 0 ({ s with time_ := now }) h
      (by rw [e]; exact Nat.lt_of_not_le hroom)
    simp only [cb2, hl] at hcount
    simp only [] at this
    omega
  · intro hroom
    rw [(cb2_spec fl now s t h hroom).1]

end AirspySoundIn

/-- C4 (amended): after 15 values are pushed, in any number of callbacks,
into an empty buffer of capacity 10, exactly the first nine remain and `get`
returns them (one cell stays free); the six newest are dropped.  No counter is
kept: a card callback that brings all 15 prints one overflow line.  The SDR
callback `cb2` keeps the first nine filter outputs in the same way (stated
for `R = 1`, where every output is to be written). -/
theorem overflow_drops_newest {Dev F : Type} (fl : Firfilt F) (fuel : Nat) (c : CardSoundIn)
    (bs : List CardSoundIn.Block) (a : AirspySoundIn Dev F) (now : ℚ) (t : airspyhf_transfer_t)
    (hc : c.WF) (hcap : c.n_ = 10) (hempty : c.wi_ = c.ri_) (hlen : (c.pushed bs).length = 15)
    (ha : a.WF) (hacap : a.n_ = 10) (haempty : a.wi_ = a.ri_)
    (hR : a.air_rate_ / a.rate_ = 1) (hin : (inputs t).length = 15) :
    (c.cbs bs).queue = (c.pushed bs).take 9 ∧
    (∃ c' t0, (c.cbs bs).get fuel 15 0 =
        .ok (c', ((c.pushed bs).take 9).map (fun x : Int => (x : ℚ) / 32767), t0) ∧
      c'.wi_ = c'.ri_) ∧
    (∀ input adc statusFlags, (c.cb input 15 adc statusFlags).2.1 =
      (if statusFlags ≠ 0 then [Stderr.cardStatusFlags statusFlags 15] else []) ++
        [Stderr.cardOverflow]) ∧
    (a.cb2 fl now t).1.queue = (filterOut fl a.filter_ (inputs t)).take 9 ∧
    (a.cb2 fl now t).1.queue.length = 9 := by
  obtain ⟨g1, g2, g3, g4⟩ := CardSoundIn.cbs_queue bs c hc
  have h0 : c.occ = 0 := (CardSoundIn.occ_eq_zero_iff c hc).2 hempty
  have hq0 : c.queue = [] :=
    List.eq_nil_of_length_eq_zero (by rw [CardSoundIn.card_queue_length, h0])
  rw [hq0, h0, List.nil_append, Nat.sub_zero, hcap] at g4
  have hocc : (c.cbs bs).occ = 9 := by
    rw [← CardSoundIn.card_queue_length, g4, List.length_take, hlen]; rfl
  have hsdr : (a.cb2 fl now t).1.queue = (filterOut fl a.filter_ (inputs t)).take 9 := by
    have a0 : a.occ = 0 := (occupancy_eq_zero_iff ha.2.1 ha.2.2.1).2 haempty
    have aq0 : a.queue = [] :=
      List.eq_nil_of_length_eq_zero (by rw [AirspySoundIn.airspy_queue_length, a0])
    rw [(AirspySoundIn.cb2_queue fl now a t ha).2, aq0, a0, hR, retained_one, hacap,
      List.nil_append]
  refine ⟨g4, ?_, ?_, hsdr, ?_⟩
  · have hd : (c.cbs bs).discarded 15 0 = 0 := by simp [CardSoundIn.discarded]
    rw [CardSoundIn.card_get_eq fuel (c.cbs bs) 15 0 g1 (by simp), hd, g4, List.drop_zero,
      List.take_of_length_le (by rw [List.length_take, hlen]; decide)]
    refine ⟨_, _, rfl, ?_⟩
    simp only [hocc, Nat.add_zero, Nat.sub_zero]
    have := add_occupancy_mod g1.2.1 g1.2.2
    rw [← CardSoundIn.occ, hocc] at this
    exact this.symm
  · intro input adc statusFlags
    simp only [CardSoundIn.cb, CardSoundIn.cbLoop_log input 15 0 c hc, h0, hcap]
    rfl
  · rw [hsdr, List.length_take, filterOut_length, hin]; rfl

/-- Witness for C4 (amended): 15 values arriving at the card source as blocks
of 7 and 8, and at the SDR source as 12 received and 3 dropped samples. -/
theorem overflow_drops_newest_witness :
    (emptyCard 10).WF ∧
    ((emptyCard 10).pushed [countingBlock 7 0, countingBlock 8 1]).length = 15 ∧
    smallAirspy.WF ∧ (inputs (countingTransfer 12 3)).length = 15 ∧
    ((emptyCard 10).cbs [countingBlock 7 0, countingBlock 8 1]).queue =
      [1, 2, 3, 4, 5, 6, 7, 1, 2] ∧
    (smallAirspy.cb2 passThrough 0 (countingTransfer 12 3)).1.queue =
      (filterOut passThrough smallAirspy.filter_ (inputs (countingTransfer 12 3))).take 9 := by
  have h := overflow_drops_newest passThrough 0 (emptyCard 10)
    [countingBlock 7 0, countingBlock 8 1] smallAirspy 0 (countingTransfer 12 3)
    (by decide) rfl rfl (by decide) (by decide) rfl rfl (by decide) (by decide)
  refine ⟨by decide, by decide, by decide, by decide, ?_, h.2.2.2.1⟩
  rw [h.1]
  decide

end Snd
